import Mathlib

/-!
Verification of the Minesweeper engine in `src/Minesweeper.py`
(class `Minesweeper`).

The engine state is embedded as a structure of functional grids (the
pytorch tensors hold small exact integers, so `Bool`/`Nat`/`Int` grids
are faithful), python `int` counters become `Int`, the float
`mine_rate` becomes an exact fraction, and the two sources of unboundedness —
the rejection-sampling mine placement and the recursive
`__discover_tile_backend` — are modelled by an explicit list of random
draws and a fuel parameter.  `none` results mark exhaustion of draws
or fuel; the python code has no corresponding return path (it loops or
recurses instead), so every terminating python execution corresponds
to a `some` result for sufficiently large fuel and draw list.
-/

set_option maxHeartbeats 1000000
set_option linter.unusedVariables false
set_option linter.unreachableTactic false
set_option linter.unusedTactic false

namespace Minesweeper

/-- Point update of a boolean grid, modelling `tensor[x, y] = v`. -/
def updB (g : Nat → Nat → Bool) (x y : Nat) (v : Bool) : Nat → Nat → Bool :=
  fun a b => if a = x ∧ b = y then v else g a b

/-- Point update of an integer grid, modelling `tensor[x, y] = v`. -/
def updI (g : Nat → Nat → Int) (x y : Nat) (v : Int) : Nat → Nat → Int :=
  fun a b => if a = x ∧ b = y then v else g a b

/-- Indicator cast of a boolean grid to the integers, as the float
tensors store 0.0/1.0. -/
def bInt (g : Nat → Nat → Bool) (a b : Nat) : Int :=
  if g a b then 1 else 0

/-- The engine state: all fields of the python object that the public
operations read or write.  The python float `MINE_RATE` is modelled as
an exact fraction (numerator, denominator), kept unnormalised. -/
structure MState where
  x : Nat
  y : Nat
  numMines : Int
  mineRate : Int × Nat
  over : Bool
  lost : Bool
  playInitiated : Bool
  discovery : Nat → Nat → Bool
  numDiscovered : Int
  flags : Nat → Nat → Bool
  numFlags : Int
  mines : Nat → Nat → Bool
  numbers : Nat → Nat → Nat
  board : Nat → Nat → Int
  derivative : Nat → Nat → Int
  updateList : List (Nat × Nat)

/-- Truncation toward zero of the fraction `q.1 / q.2`, modelling
python `int(...)` applied to the real value of the expression
(`Int.tdiv` rounds toward zero). -/
def pyInt (q : Int × Nat) : Int := Int.tdiv q.1 (q.2 : Int)

/-- A throwaway state used as the default value when extracting from
an `Option`/`Except` that is known to be populated. -/
def dummyState : MState where
  x := 0
  y := 0
  numMines := 0
  mineRate := (0, 1)
  over := false
  lost := false
  playInitiated := false
  discovery := fun _ _ => false
  numDiscovered := 0
  flags := fun _ _ => false
  numFlags := 0
  mines := fun _ _ => false
  numbers := fun _ _ => 0
  board := fun _ _ => 0
  derivative := fun _ _ => 0
  updateList := []

instance : Inhabited MState := ⟨dummyState⟩

/-- The session status as the GUI derives it: `Won` is
`game.over and not game.lost` (MinesweeperGUI.py line 455), `Lost` is
the `lost` flag, and otherwise the game is running. -/
inductive GStatus where
  | notStarted
  | inProgress
  | won
  | lostGame
deriving DecidableEq

/-- Status read-out of a state. -/
def status (s : MState) : GStatus :=
  if s.lost then GStatus.lostGame
  else if s.over then GStatus.won
  else if s.playInitiated then GStatus.inProgress
  else GStatus.notStarted

/-- Model of `__get_legal_neighbors`: the in-bounds cells of the 3×3
block around `(x, y)`, the centre removed, in the python iteration
order (`y_offset` outer loop, `x_offset` inner loop). -/
def get_legal_neighbors (X Y x y : Nat) : List (Nat × Nat) :=
  (([-1, 0, 1] : List Int).flatMap (fun yo =>
    (([-1, 0, 1] : List Int).filterMap (fun xo =>
      let xc : Int := (x : Int) + xo
      let yc : Int := (y : Int) + yo
      if xc < 0 ∨ (X : Int) ≤ xc ∨ yc < 0 ∨ (Y : Int) ≤ yc ∨ (xo = 0 ∧ yo = 0)
      then none
      else some (xc.toNat, yc.toNat)))))

/-- Rejection-sampling loop of `__populate_mine_mask`: while `k > 0`,
draw a coordinate; if the grid does not hold `v` there yet, write `v`
and decrement `k`.  Each loop iteration consumes one draw; an empty
draw list with `k > 0` is exhaustion (`none`). -/
def placeLoop (v : Bool) : Int → (Nat → Nat → Bool) → List (Nat × Nat) →
    Option ((Nat → Nat → Bool) × List (Nat × Nat))
  | k, g, [] => if k ≤ 0 then some (g, []) else none
  | k, g, (a, b) :: rest =>
    if k ≤ 0 then some (g, (a, b) :: rest)
    else if g a b = v then placeLoop v k g rest
    else placeLoop v (k - 1) (updB g a b v) rest

/-- Model of `__populate_mine_mask`: when more than half the tiles are
mines it is cheaper to place holes into a full grid, otherwise mines
into an empty grid (`num_mines > num_tiles / 2` over the integers). -/
def populate_mine_mask (X Y : Nat) (numMines : Int) (draws : List (Nat × Nat)) :
    Option ((Nat → Nat → Bool) × List (Nat × Nat)) :=
  if 2 * numMines > (X * Y : Nat) then
    placeLoop false ((X * Y : Nat) - numMines) (fun _ _ => true) draws
  else
    placeLoop true numMines (fun _ _ => false) draws

/-- Model of `__fill_number_mask`: for each non-mine cell the count of
mines among its legal neighbors; mine cells keep the initial 0. -/
def fill_number_mask (X Y : Nat) (mines : Nat → Nat → Bool) : Nat → Nat → Nat :=
  fun a b =>
    if mines a b then 0
    else (get_legal_neighbors X Y a b).foldl
      (fun acc p => acc + (if mines p.1 p.2 then 1 else 0)) 0

/-- Model of `__build_game_board`: discovered cells show their number,
flagged cells −1, everything else −2 (discovery is checked last in the
source, so it takes precedence). -/
def build_game_board (discovery flags : Nat → Nat → Bool)
    (numbers : Nat → Nat → Nat) : Nat → Nat → Int :=
  fun a b =>
    if discovery a b then (numbers a b : Int)
    else if flags a b then -1 else -2

/-- Configuration errors raised by `initialize_game_state`. -/
inductive InitError where
  | illegalShape
  | tooManyMines
deriving DecidableEq

/-- Model of `initialize_game_state`: validates the shape, derives the
mine count either from the explicit argument or as
`int(num_tiles * mine_rate)`, validates it, and builds all game-state
tensors.  `Except` carries the `ValueError`s; the inner `Option` is
`none` when the draw list runs out during mine placement. -/
def init_game_state (x y : Int) (mines : Option Int) (mine_rate : Int × Nat)
    (draws : List (Nat × Nat)) :
    Except InitError (Option (MState × List (Nat × Nat))) :=
  if x ≤ 0 ∨ y ≤ 0 then Except.error InitError.illegalShape
  else
    let X := x.toNat
    let Y := y.toNat
    let numTiles : Nat := X * Y
    let numMines : Int :=
      match mines with
      | some m => m
      | none => pyInt ((numTiles : Int) * mine_rate.1, mine_rate.2)
    let rate : Int × Nat :=
      match mines with
      | some m => (m, numTiles)
      | none => mine_rate
    if numMines > (numTiles : Int) then Except.error InitError.tooManyMines
    else
      match populate_mine_mask X Y numMines draws with
      | none => Except.ok none
      | some (minesGrid, rest) =>
        let numbers := fill_number_mask X Y minesGrid
        let discovery : Nat → Nat → Bool := fun _ _ => false
        let flags : Nat → Nat → Bool := fun _ _ => false
        Except.ok (some (
          { x := X
            y := Y
            numMines := numMines
            mineRate := rate
            over := false
            lost := false
            playInitiated := false
            discovery := discovery
            numDiscovered := 0
            flags := flags
            numFlags := 0
            mines := minesGrid
            numbers := numbers
            board := build_game_board discovery flags numbers
            derivative := fun _ _ => 0
            updateList := [] }, rest))

/-- The first-move regeneration inside `__discover_tile_backend`:
`reinitialize_game_state()` (which is `initialize_game_state` on the
stored dimensions and mine rate), then the saved flag tensor is put
back and the game board is rebuilt from it.  The flag counter is NOT
restored — it keeps the fresh value 0 from the re-initialization.
`none` covers both draw exhaustion and a (reachability-impossible)
configuration error. -/
def regenerate (s : MState) (draws : List (Nat × Nat)) :
    Option (MState × List (Nat × Nat)) :=
  match init_game_state (s.x : Int) (s.y : Int) none s.mineRate draws with
  | Except.error _ => none
  | Except.ok none => none
  | Except.ok (some (s1, rest)) =>
    some ({ s1 with
              flags := s.flags
              board := build_game_board s1.discovery s.flags s1.numbers }, rest)

/-- Model of `update_game_board`: add the accumulated derivative to the
board, clear it, then the win check (`num_tiles - num_discovered ==
num_mines` turns every mine cell into −1 and ends the game) and, if
the game is lost, the incorrect-flag rewrite (flagged non-mines become
−5). -/
def update_game_board (s : MState) : MState :=
  let s1 := { s with board := fun a b => s.board a b + s.derivative a b,
                     derivative := fun _ _ => (0 : Int) }
  let s2 :=
    if (s1.x * s1.y : Int) - s1.numDiscovered = s1.numMines then
      { s1 with over := true,
                board := fun a b => if s1.mines a b then -1 else s1.board a b }
    else s1
  if s2.lost then
    { s2 with board := fun a b =>
        if s2.mines a b = false ∧ s2.flags a b then -5 else s2.board a b }
  else s2

/-- Sequential backend calls over a coordinate list (the neighbor loops
of the flood reveal and of `__test_number_tile_backend`); return values
of the individual calls are discarded, the state and the draw supply
are threaded.  The call to make on each coordinate is a parameter so
that the flood recursion below stays structural on its fuel. -/
def runList (step : MState → List (Nat × Nat) → Nat → Nat →
    Option (MState × List (Nat × Nat) × Bool)) :
    MState → List (Nat × Nat) → List (Nat × Nat) →
    Option (MState × List (Nat × Nat))
  | s, draws, [] => some (s, draws)
  | s, draws, p :: rest =>
    match step s draws p.1 p.2 with
    | none => none
    | some (s1, d1, _) => runList step s1 d1 rest

/-- Model of `__discover_tile_backend`.  Order of the source: flagged
cells fail; before the first successful move an unsafe target causes a
full regeneration (flags preserved) and a retry at the same
coordinate, while a safe target sets `play_initiated`; already
discovered cells fail; the cell is marked discovered; a mine ends the
game and exposes the unflagged mines on the derivative; a zero cell
recurses into all legal neighbors; the counter increment and the
update-list append happen after the recursion.  The fuel drops by one
on every nested call; `none` is fuel or draw exhaustion. -/
def discover_tile_backend : Nat → MState → List (Nat × Nat) → Nat → Nat →
    Option (MState × List (Nat × Nat) × Bool)
  | 0, _, _, _, _ => none
  | fuel + 1, s, draws, x, y =>
    if s.flags x y = true then some (s, draws, false)
    else if s.playInitiated = false ∧ (s.numbers x y ≠ 0 ∨ s.mines x y = true) then
      match regenerate s draws with
      | none => none
      | some (s1, d1) => discover_tile_backend fuel s1 d1 x y
    else
      let s1 := if s.playInitiated then s else { s with playInitiated := true }
      if s1.discovery x y = true then some (s1, draws, false)
      else
        let s2 := { s1 with discovery := updB s1.discovery x y true }
        if s2.mines x y = true then
          let s3 := { s2 with over := true, lost := true }
          let s4 := { s3 with derivative := (fun a b =>
            s3.derivative a b -
              (bInt s3.mines a b -
                (if s3.mines a b then bInt s3.flags a b else 0))) }
          let s5 := { s4 with derivative :=
                        (updI s4.derivative x y (s4.derivative x y - 1)) }
          some ({ s5 with numDiscovered := s5.numDiscovered + 1,
                          updateList := s5.updateList ++ [(x, y)] }, draws, true)
        else
          let s3 := { s2 with derivative :=
                        (updI s2.derivative x y
                          (s2.derivative x y + 2 + (s2.numbers x y : Int))) }
          if s2.numbers x y = 0 then
            match runList (fun t d a b => discover_tile_backend fuel t d a b)
                s3 draws (get_legal_neighbors s3.x s3.y x y) with
            | none => none
            | some (s4, d4) =>
              some ({ s4 with numDiscovered := s4.numDiscovered + 1,
                              updateList := s4.updateList ++ [(x, y)] }, d4, true)
          else
            some ({ s3 with numDiscovered := s3.numDiscovered + 1,
                            updateList := s3.updateList ++ [(x, y)] }, draws, true)

/-- Model of the public `discover_tile`: rejected outright when the
game is over (the pending-update list survives in that case), otherwise
the update list is cleared, the backend runs and the board is brought
up to date. -/
def discover_tile (fuel : Nat) (s : MState) (draws : List (Nat × Nat))
    (x y : Nat) : Option (MState × List (Nat × Nat) × Bool) :=
  if s.over then some (s, draws, false)
  else
    match discover_tile_backend fuel { s with updateList := [] } draws x y with
    | none => none
    | some (s1, d1, r) => some (update_game_board s1, d1, r)

/-- Model of the public `test_number_tile` (chord): rejected outright
when the game is over or the target is undiscovered; otherwise the
update list is cleared and the backend counts the flags among the
legal neighbors, discovering all of them when the count matches the
cell's number.  The board update runs in both backend outcomes.  The
flood fuel `x*y + 1` is always sufficient (see
`discover_tile_backend_isSome`). -/
def test_number_tile (s : MState) (draws : List (Nat × Nat)) (x y : Nat) :
    Option (MState × List (Nat × Nat) × Bool) :=
  if s.over = true ∨ s.discovery x y = false then some (s, draws, false)
  else
    let s0 := { s with updateList := [] }
    let neighbors := get_legal_neighbors s0.x s0.y x y
    let numberFlags : Nat := neighbors.foldl
      (fun acc p => acc + (if s0.flags p.1 p.2 then 1 else 0)) 0
    if numberFlags = s0.numbers x y then
      match runList (discover_tile_backend (s0.x * s0.y + 1)) s0 draws neighbors with
      | none => none
      | some (s1, d1) => some (update_game_board s1, d1, true)
    else some (update_game_board s0, draws, false)

/-- Model of the public `flag_tile`: rejected when the game is over;
otherwise the update list is cleared and the backend toggles the flag
of an undiscovered cell, adjusting the counter and the derivative, then
the board is brought up to date. -/
def flag_tile (s : MState) (x y : Nat) : MState × Bool :=
  if s.over then (s, false)
  else
    let s0 := { s with updateList := [] }
    if s0.discovery x y = true then (update_game_board s0, false)
    else if s0.flags x y = true then
      let s1 := { s0 with flags := updB s0.flags x y false,
                          derivative := updI s0.derivative x y (s0.derivative x y - 1),
                          numFlags := s0.numFlags - 1 }
      (update_game_board { s1 with updateList := s1.updateList ++ [(x, y)] }, true)
    else
      let s1 := { s0 with flags := updB s0.flags x y true,
                          derivative := updI s0.derivative x y (s0.derivative x y + 1),
                          numFlags := s0.numFlags + 1 }
      (update_game_board { s1 with updateList := s1.updateList ++ [(x, y)] }, true)

/-- One public gameplay operation. -/
inductive Move where
  | disc (x y : Nat)
  | chord (x y : Nat)
  | flag (x y : Nat)

/-- Dispatch of one public gameplay call. -/
def applyMove (fuel : Nat) (s : MState) (draws : List (Nat × Nat)) :
    Move → Option (MState × List (Nat × Nat) × Bool)
  | Move.disc x y => discover_tile fuel s draws x y
  | Move.chord x y => test_number_tile s draws x y
  | Move.flag x y =>
    let r := flag_tile s x y
    some (r.1, draws, r.2)

/-! ### Basic facts about the grid helpers -/

theorem get_legal_neighbors_mem {X Y x y : Nat} {p : Nat × Nat}
    (h : p ∈ get_legal_neighbors X Y x y) : p.1 < X ∧ p.2 < Y := by
  simp only [get_legal_neighbors, List.mem_flatMap, List.mem_filterMap] at h
  obtain ⟨yo, hyo, xo, hxo, hp⟩ := h
  by_cases hc : ((x : Int) + xo < 0 ∨ (X : Int) ≤ (x : Int) + xo ∨
      (y : Int) + yo < 0 ∨ (Y : Int) ≤ (y : Int) + yo ∨ (xo = 0 ∧ yo = 0))
  · simp [hc] at hp
  · rw [if_neg hc] at hp
    push_neg at hc
    obtain ⟨h1, h2, h3, h4, _⟩ := hc
    cases hp
    constructor
    · simp only []
      omega
    · simp only []
      omega

/-- The number of undiscovered in-range cells: the termination measure
of the flood reveal. -/
def undisc (s : MState) : Nat :=
  ((Finset.range s.x ×ˢ Finset.range s.y).filter
    (fun p => s.discovery p.1 p.2 = false)).card

theorem undisc_le (s : MState) : undisc s ≤ s.x * s.y := by
  calc ((Finset.range s.x ×ˢ Finset.range s.y).filter
      (fun p => s.discovery p.1 p.2 = false)).card
      ≤ (Finset.range s.x ×ˢ Finset.range s.y).card := Finset.card_filter_le _ _
    _ = s.x * s.y := by simp [Finset.card_product]

/-! ### The step relation preserved by the flood reveal -/

/-- What one backend call (with `play_initiated` true, so without
regeneration) does to the state: dimensions, flags, mines, numbers and
the play flag are untouched, `lost` only ever turns on, `over` can only
turn on together with `lost`, and discovery only grows. -/
def Step (t u : MState) : Prop :=
  u.x = t.x ∧ u.y = t.y ∧ u.flags = t.flags ∧ u.mines = t.mines ∧
  u.numbers = t.numbers ∧ u.playInitiated = t.playInitiated ∧
  (t.lost = true → u.lost = true) ∧
  (u.over = true → t.over = true ∨ u.lost = true) ∧
  (∀ a b, t.discovery a b = true → u.discovery a b = true)

theorem Step.refl (s : MState) : Step s s := by
  refine ⟨rfl, rfl, rfl, rfl, rfl, rfl, fun h => h, fun h => Or.inl h, fun _ _ h => h⟩

theorem Step.trans {a b c : MState} (h1 : Step a b) (h2 : Step b c) : Step a c := by
  obtain ⟨x1, y1, f1, m1, n1, p1, l1, o1, d1⟩ := h1
  obtain ⟨x2, y2, f2, m2, n2, p2, l2, o2, d2⟩ := h2
  refine ⟨x2.trans x1, y2.trans y1, f2.trans f1, m2.trans m1, n2.trans n1,
    p2.trans p1, fun h => l2 (l1 h), ?_, fun a b h => d2 a b (d1 a b h)⟩
  intro h
  rcases o2 h with hb | hc
  · rcases o1 hb with ha | hbl
    · exact Or.inl ha
    · exact Or.inr (l2 hbl)
  · exact Or.inr hc

theorem Step.undisc_mono {t u : MState} (h : Step t u) : undisc u ≤ undisc t := by
  obtain ⟨hx, hy, _, _, _, _, _, _, hd⟩ := h
  unfold undisc
  rw [hx, hy]
  apply Finset.card_le_card
  intro p hp
  simp only [Finset.mem_filter] at hp ⊢
  refine ⟨hp.1, ?_⟩
  by_contra hc
  have := hd p.1 p.2 (by revert hc; cases u.discovery p.1 p.2 <;> simp)
  rw [hp.2] at this
  cases this

/-- Marking an in-range undiscovered cell strictly shrinks the
measure. -/
theorem undisc_mark_lt {s : MState} {x y : Nat} (hx : x < s.x) (hy : y < s.y)
    (hd : s.discovery x y = false) :
    undisc { s with discovery := updB s.discovery x y true } < undisc s := by
  apply Finset.card_lt_card
  constructor
  · intro p hp
    simp only [Finset.mem_filter, updB] at hp ⊢
    refine ⟨hp.1, ?_⟩
    have := hp.2
    by_cases hpe : p.1 = x ∧ p.2 = y
    · simp [hpe] at this
    · simpa [hpe] using this
  · intro hsub
    have hmem : (x, y) ∈ (Finset.range s.x ×ˢ Finset.range s.y).filter
        (fun p => s.discovery p.1 p.2 = false) := by
      simp [Finset.mem_filter, Finset.mem_product, hx, hy, hd]
    have := hsub hmem
    simp [Finset.mem_filter, updB] at this

/-! ### Generic lemmas about `runList` -/

theorem runList_inv {step : MState → List (Nat × Nat) → Nat → Nat →
      Option (MState × List (Nat × Nat) × Bool)}
    {P : MState → MState → Prop} {Inv : MState → Prop}
    (hrefl : ∀ s, P s s)
    (htrans : ∀ a b c, P a b → P b c → P a c)
    (hinv : ∀ t u, Inv t → P t u → Inv u)
    (hstep : ∀ t d a b out, Inv t → step t d a b = some out →
      P t out.1 ∧ out.2.1 = d) :
    ∀ l s d out, Inv s → runList step s d l = some out →
      P s out.1 ∧ out.2 = d := by
  intro l
  induction l with
  | nil =>
    intro s d out hI h
    simp only [runList] at h
    cases h
    exact ⟨hrefl s, rfl⟩
  | cons p rest ih =>
    intro s d out hI h
    simp only [runList] at h
    cases hcall : step s d p.1 p.2 with
    | none => rw [hcall] at h; cases h
    | some o =>
      rw [hcall] at h
      obtain ⟨h1, h2⟩ := hstep s d p.1 p.2 o hI hcall
      obtain ⟨h3, h4⟩ := ih o.1 o.2.1 out (hinv s o.1 hI h1) h
      exact ⟨htrans _ _ _ h1 h3, by rw [h4, h2]⟩

/-! ### The backend respects `Step` once play has been initiated -/

theorem dtb_step : ∀ (fuel : Nat) (t : MState) (d : List (Nat × Nat))
    (x y : Nat) (out : MState × List (Nat × Nat) × Bool),
    t.playInitiated = true → discover_tile_backend fuel t d x y = some out →
    Step t out.1 ∧ out.2.1 = d := by
  intro fuel
  induction fuel with
  | zero =>
    intro t d x y out hp h
    simp [discover_tile_backend] at h
  | succ f ih =>
    intro t d x y out hp h
    rw [discover_tile_backend] at h
    by_cases hf : t.flags x y = true
    · rw [if_pos hf] at h
      cases h
      exact ⟨Step.refl t, rfl⟩
    · rw [if_neg hf] at h
      rw [if_neg (by simp [hp])] at h
      simp only [hp, if_true] at h
      by_cases hd : t.discovery x y = true
      · rw [if_pos hd] at h
        cases h
        exact ⟨Step.refl t, rfl⟩
      · rw [if_neg hd] at h
        by_cases hm : t.mines x y = true
        · rw [if_pos hm] at h
          cases h
          refine ⟨⟨rfl, rfl, rfl, rfl, rfl, hp.symm, fun _ => rfl,
            fun _ => Or.inr rfl, ?_⟩, rfl⟩
          intro a b hab
          simp only [updB]
          split
          · rfl
          · exact hab
        · rw [if_neg hm] at h
          by_cases hz : t.numbers x y = 0
          · rw [if_pos hz] at h
            split at h
            · cases h
            · rename_i s4 d4 hrl
              cases h
              have hbig : Step t
                  { t with playInitiated := true,
                           discovery := updB t.discovery x y true,
                           derivative := (updI t.derivative x y
                              (t.derivative x y + 2 + (t.numbers x y : Int))) } := by
                refine ⟨rfl, rfl, rfl, rfl, rfl, hp.symm, fun h => h,
                  fun h => Or.inl h, ?_⟩
                intro a b hab
                simp only [updB]
                split
                · rfl
                · exact hab
              have hmain := @runList_inv (fun t d a b => discover_tile_backend f t d a b) Step
                (fun u => u.playInitiated = true)
                Step.refl (fun a b c => Step.trans)
                (fun t u hI hP => by
                  show u.playInitiated = true
                  rw [hP.2.2.2.2.2.1]
                  exact hI)
                (fun t d a b out hI hcall => ih t d a b out hI hcall)
                _ _ d (s4, d4) rfl hrl
              refine ⟨Step.trans hbig (Step.trans hmain.1 ?_), hmain.2⟩
              exact ⟨rfl, rfl, rfl, rfl, rfl, rfl, fun h => h, fun h => Or.inl h,
                fun _ _ h => h⟩
          · rw [if_neg hz] at h
            cases h
            refine ⟨⟨rfl, rfl, rfl, rfl, rfl, hp.symm, fun h => h,
              fun h => Or.inl h, ?_⟩, rfl⟩
            intro a b hab
            simp only [updB]
            split
            · rfl
            · exact hab

/-! ### What a successful initialization / regeneration produces -/

theorem init_spec {x y : Int} {mines : Option Int} {rate : Int × Nat}
    {draws : List (Nat × Nat)} {st : MState} {rest : List (Nat × Nat)}
    (h : init_game_state x y mines rate draws = Except.ok (some (st, rest))) :
    st.over = false ∧ st.lost = false ∧ st.playInitiated = false ∧
    st.x = x.toNat ∧ st.y = y.toNat ∧
    st.discovery = (fun _ _ => false) ∧ st.flags = (fun _ _ => false) ∧
    st.numFlags = 0 ∧ st.numDiscovered = 0 ∧ st.updateList = [] ∧
    st.derivative = (fun _ _ => 0) ∧
    st.numbers = fill_number_mask x.toNat y.toNat st.mines ∧
    st.board = build_game_board st.discovery st.flags st.numbers := by
  rw [init_game_state] at h
  by_cases hsh : x ≤ 0 ∨ y ≤ 0
  · rw [if_pos hsh] at h
    cases h
  · rw [if_neg hsh] at h
    simp only [] at h
    split at h
    · cases h
    · split at h
      · cases h
      · rename_i mg rest2 hpm
        cases h
        refine ⟨rfl, rfl, rfl, rfl, rfl, rfl, rfl, rfl, rfl, rfl, rfl, rfl, rfl⟩

theorem regenerate_spec {s : MState} {d : List (Nat × Nat)} {s1 : MState}
    {d1 : List (Nat × Nat)} (h : regenerate s d = some (s1, d1)) :
    s1.over = false ∧ s1.lost = false ∧ s1.playInitiated = false ∧
    s1.flags = s.flags ∧ s1.discovery = (fun _ _ => false) ∧
    s1.x = s.x ∧ s1.y = s.y ∧ s1.numFlags = 0 ∧ s1.numDiscovered = 0 ∧
    s1.updateList = [] ∧ s1.derivative = (fun _ _ => 0) := by
  rw [regenerate] at h
  split at h
  · cases h
  · cases h
  · rename_i st rest hinit
    cases h
    obtain ⟨h1, h2, h3, h4, h5, h6, h7, h8, h9, h10, h11, _, _⟩ := init_spec hinit
    refine ⟨h1, h2, h3, rfl, h6, ?_, ?_, h8, h9, h10, h11⟩
    · rw [h4]; simp
    · rw [h5]; simp

/-! ### The target of a backend call ends up discovered unless flagged -/

theorem dtb_post : ∀ (fuel : Nat) (t : MState) (d : List (Nat × Nat))
    (x y : Nat) (out : MState × List (Nat × Nat) × Bool),
    t.playInitiated = true → discover_tile_backend fuel t d x y = some out →
    t.flags x y = false → out.1.discovery x y = true := by
  intro fuel t d x y out hp h hf
  cases fuel with
  | zero => simp [discover_tile_backend] at h
  | succ f =>
    rw [discover_tile_backend] at h
    rw [if_neg (by simp [hf])] at h
    rw [if_neg (by simp [hp])] at h
    simp only [hp, if_true] at h
    by_cases hd : t.discovery x y = true
    · rw [if_pos hd] at h
      cases h
      exact hd
    · rw [if_neg hd] at h
      by_cases hm : t.mines x y = true
      · rw [if_pos hm] at h
        cases h
        simp [updB]
      · rw [if_neg hm] at h
        by_cases hz : t.numbers x y = 0
        · rw [if_pos hz] at h
          split at h
          · cases h
          · rename_i s4 d4 hrl
            cases h
            have hmain := @runList_inv (fun t d a b => discover_tile_backend f t d a b) Step
              (fun u => u.playInitiated = true)
              Step.refl (fun a b c => Step.trans)
              (fun t u hI hP => by
                show u.playInitiated = true
                rw [hP.2.2.2.2.2.1]
                exact hI)
              (fun t d a b out hI hcall => dtb_step f t d a b out hI hcall)
              _ _ d (s4, d4) rfl hrl
            exact hmain.1.2.2.2.2.2.2.2.2 x y (by simp [updB])
        · rw [if_neg hz] at h
          cases h
          simp [updB]

/-! ### Totality of the backend once play is initiated -/

theorem runList_isSome {F : Nat}
    {step : MState → List (Nat × Nat) → Nat → Nat →
      Option (MState × List (Nat × Nat) × Bool)}
    (hstep : ∀ t d a b, t.playInitiated = true → undisc t < F →
      a < t.x → b < t.y →
      ∃ out, step t d a b = some out ∧ Step t out.1) :
    ∀ (l : List (Nat × Nat)) (t : MState) (d : List (Nat × Nat)),
      t.playInitiated = true → undisc t < F →
      (∀ p ∈ l, p.1 < t.x ∧ p.2 < t.y) →
      ∃ s' d', runList step t d l = some (s', d') ∧ Step t s' := by
  intro l
  induction l with
  | nil =>
    intro t d hp hu hr
    exact ⟨t, d, rfl, Step.refl t⟩
  | cons p rest ih =>
    intro t d hp hu hr
    obtain ⟨out, hcall, hst⟩ := hstep t d p.1 p.2 hp hu
      (hr p (List.mem_cons_self p rest)).1 (hr p (List.mem_cons_self p rest)).2
    have hp1 : out.1.playInitiated = true := by rw [hst.2.2.2.2.2.1]; exact hp
    have hu1 : undisc out.1 < F := lt_of_le_of_lt hst.undisc_mono hu
    have hr1 : ∀ q ∈ rest, q.1 < out.1.x ∧ q.2 < out.1.y := by
      intro q hq
      rw [hst.1, hst.2.1]
      exact hr q (List.mem_cons_of_mem p hq)
    obtain ⟨s', d', hrest, hst2⟩ := ih out.1 out.2.1 hp1 hu1 hr1
    refine ⟨s', d', ?_, Step.trans hst hst2⟩
    simp only [runList, hcall]
    exact hrest

theorem dtb_isSome : ∀ (fuel : Nat) (t : MState) (d : List (Nat × Nat))
    (x y : Nat), t.playInitiated = true → undisc t < fuel →
    x < t.x → y < t.y →
    ∃ out, discover_tile_backend fuel t d x y = some out := by
  intro fuel
  induction fuel with
  | zero =>
    intro t d x y hp hu hx hy
    omega
  | succ f ih =>
    intro t d x y hp hu hx hy
    rw [discover_tile_backend]
    by_cases hf : t.flags x y = true
    · rw [if_pos hf]
      exact ⟨_, rfl⟩
    · rw [if_neg hf]
      rw [if_neg (by simp [hp])]
      simp only [hp, if_true]
      by_cases hd : t.discovery x y = true
      · rw [if_pos hd]
        exact ⟨_, rfl⟩
      · rw [if_neg hd]
        by_cases hm : t.mines x y = true
        · rw [if_pos hm]
          exact ⟨_, rfl⟩
        · rw [if_neg hm]
          by_cases hz : t.numbers x y = 0
          · rw [if_pos hz]
            have hdf : t.discovery x y = false := by
              revert hd; cases t.discovery x y <;> simp
            have hmark := undisc_mark_lt hx hy hdf
            obtain ⟨s', d', hrl, _⟩ := @runList_isSome f (fun t d a b => discover_tile_backend f t d a b)
              (fun t d a b hp1 hu1 ha hb => by
                obtain ⟨out, hout⟩ := ih t d a b hp1 hu1 ha hb
                exact ⟨out, hout, (dtb_step f t d a b out hp1 hout).1⟩)
              (get_legal_neighbors t.x t.y x y)
              { t with playInitiated := true,
                       discovery := updB t.discovery x y true,
                       derivative := (updI t.derivative x y
                          (t.derivative x y + 2 + (t.numbers x y : Int))) }
              d rfl
              (Nat.lt_of_lt_of_le hmark (Nat.lt_succ_iff.mp hu))
              (fun p hpmem => get_legal_neighbors_mem hpmem)
            rw [hrl]
            exact ⟨_, rfl⟩
          · rw [if_neg hz]
            exact ⟨_, rfl⟩

/-! ### First-move behaviour of the backend -/

/-- When play is not yet initiated but the target is safe (zero number,
no mine) and unflagged, the backend behaves like the backend on the
state with `play_initiated` switched on. -/
theorem dtb_first_safe_eq {fuel : Nat} {t : MState} {d : List (Nat × Nat)}
    {x y : Nat} (hp : t.playInitiated = false) (hf : t.flags x y = false)
    (hz : t.numbers x y = 0) (hm : t.mines x y = false) :
    discover_tile_backend (fuel + 1) t d x y =
      discover_tile_backend (fuel + 1) { t with playInitiated := true } d x y := by
  rw [discover_tile_backend, discover_tile_backend]
  simp [hp, hf, hz, hm]

/-- A backend call on an unflagged, undiscovered, mine-free target with
play initiated reports success. -/
theorem dtb_safe_true {fuel : Nat} {u : MState} {d : List (Nat × Nat)}
    {x y : Nat} {out : MState × List (Nat × Nat) × Bool}
    (hp : u.playInitiated = true) (hf : u.flags x y = false)
    (hd : u.discovery x y = false) (hm : u.mines x y = false)
    (h : discover_tile_backend fuel u d x y = some out) : out.2.2 = true := by
  cases fuel with
  | zero => simp [discover_tile_backend] at h
  | succ f =>
    rw [discover_tile_backend] at h
    rw [if_neg (by simp [hf])] at h
    rw [if_neg (by simp [hp])] at h
    simp only [hp, if_true] at h
    rw [if_neg (by simp [hd])] at h
    rw [if_neg (by simp [hm])] at h
    by_cases hz : u.numbers x y = 0
    · rw [if_pos hz] at h
      split at h
      · cases h
      · cases h
        rfl
    · rw [if_neg hz] at h
      cases h
      rfl

/-- Before the first successful move, a backend call on an unflagged
target never reports failure: it regenerates until the target is safe
and then succeeds. -/
theorem dtb_first_not_false : ∀ (fuel : Nat) (t : MState)
    (d : List (Nat × Nat)) (x y : Nat) (out : MState × List (Nat × Nat) × Bool),
    t.playInitiated = false → t.flags x y = false →
    (∀ a b, t.discovery a b = false) →
    discover_tile_backend fuel t d x y = some out → out.2.2 = true := by
  intro fuel
  induction fuel with
  | zero =>
    intro t d x y out hp hf hdall h
    simp [discover_tile_backend] at h
  | succ f ih =>
    intro t d x y out hp hf hdall h
    by_cases hsafe : t.numbers x y = 0 ∧ t.mines x y = false
    · rw [dtb_first_safe_eq hp hf hsafe.1 hsafe.2] at h
      refine dtb_safe_true ?_ ?_ ?_ ?_ h
      · exact rfl
      · exact hf
      · exact hdall x y
      · exact hsafe.2
    · rw [discover_tile_backend] at h
      rw [if_neg (by simp [hf])] at h
      rw [if_pos ⟨hp, by
        rcases Bool.eq_false_or_eq_true (t.mines x y) with hm | hm
        · exact Or.inr hm
        · rw [hm] at hsafe
          refine Or.inl ?_
          intro hz
          exact hsafe ⟨hz, rfl⟩⟩] at h
      split at h
      · cases h
      · rename_i s1 d1 hreg
        obtain ⟨_, _, hp1, hfl1, hdisc1, _, _, _, _, _, _⟩ := regenerate_spec hreg
        exact ih s1 d1 x y out hp1 (by rw [hfl1]; exact hf)
          (by intro a b; rw [hdisc1]) h

/-- A successful first move always lands, after the regenerations, on a
zero-adjacency non-mine cell; the flag grid survives untouched and
play becomes initiated. -/
theorem dtb_first_success : ∀ (fuel : Nat) (t : MState)
    (d : List (Nat × Nat)) (x y : Nat) (out : MState × List (Nat × Nat) × Bool),
    t.playInitiated = false →
    discover_tile_backend fuel t d x y = some out → out.2.2 = true →
    out.1.numbers x y = 0 ∧ out.1.mines x y = false ∧
      out.1.playInitiated = true ∧ out.1.flags = t.flags := by
  intro fuel
  induction fuel with
  | zero =>
    intro t d x y out hp h hr
    simp [discover_tile_backend] at h
  | succ f ih =>
    intro t d x y out hp h hr
    by_cases hflag : t.flags x y = true
    · rw [discover_tile_backend, if_pos hflag] at h
      cases h
      cases hr
    · by_cases hsafe : t.numbers x y = 0 ∧ t.mines x y = false
      · rw [dtb_first_safe_eq hp
          (by revert hflag; cases t.flags x y <;> simp) hsafe.1 hsafe.2] at h
        have hst := (dtb_step (f + 1) _ d x y out rfl h).1
        obtain ⟨_, _, hfl, hmi, hnum, hpl, _, _, _⟩ := hst
        refine ⟨?_, ?_, ?_, ?_⟩
        · rw [hnum]
          exact hsafe.1
        · rw [hmi]
          exact hsafe.2
        · rw [hpl]
        · rw [hfl]
      · rw [discover_tile_backend] at h
        rw [if_neg (by simp [hflag])] at h
        rw [if_pos ⟨hp, by
          rcases Bool.eq_false_or_eq_true (t.mines x y) with hm | hm
          · exact Or.inr hm
          · rw [hm] at hsafe
            refine Or.inl ?_
            intro hz
            exact hsafe ⟨hz, rfl⟩⟩] at h
        split at h
        · cases h
        · rename_i s1 d1 hreg
          obtain ⟨_, _, hp1, hfl1, _, _, _, _, _, _, _⟩ := regenerate_spec hreg
          obtain ⟨h1, h2, h3, h4⟩ := ih s1 d1 x y out hp1 h hr
          exact ⟨h1, h2, h3, by rw [h4, hfl1]⟩

/-! ### `over` only turns on together with `lost` or the win check -/

theorem dtb_over : ∀ (fuel : Nat) (t : MState) (d : List (Nat × Nat))
    (x y : Nat) (out : MState × List (Nat × Nat) × Bool),
    discover_tile_backend fuel t d x y = some out →
    out.1.over = true → t.over = true ∨ out.1.lost = true := by
  intro fuel
  induction fuel with
  | zero =>
    intro t d x y out h hover
    simp [discover_tile_backend] at h
  | succ f ih =>
    intro t d x y out h hover
    rcases Bool.eq_false_or_eq_true t.playInitiated with hp | hp
    · have hst := (dtb_step (f + 1) t d x y out hp h).1
      exact hst.2.2.2.2.2.2.2.1 hover
    · by_cases hflag : t.flags x y = true
      · rw [discover_tile_backend, if_pos hflag] at h
        cases h
        exact Or.inl hover
      · have hflag' : t.flags x y = false := by
          revert hflag; cases t.flags x y <;> simp
        by_cases hsafe : t.numbers x y = 0 ∧ t.mines x y = false
        · rw [dtb_first_safe_eq hp hflag' hsafe.1 hsafe.2] at h
          have hst := (dtb_step (f + 1) _ d x y out rfl h).1
          exact hst.2.2.2.2.2.2.2.1 hover
        · rw [discover_tile_backend] at h
          rw [if_neg (by simp [hflag'])] at h
          rw [if_pos ⟨hp, by
            rcases Bool.eq_false_or_eq_true (t.mines x y) with hm | hm
            · exact Or.inr hm
            · rw [hm] at hsafe
              refine Or.inl ?_
              intro hz
              exact hsafe ⟨hz, rfl⟩⟩] at h
          split at h
          · cases h
          · rename_i s1 d1 hreg
            obtain ⟨ho1, _, _, _, _, _, _, _, _, _, _⟩ := regenerate_spec hreg
            rcases ih s1 d1 x y out h hover with h1 | h2
            · rw [ho1] at h1
              cases h1
            · exact Or.inr h2

/-! ### All targets of a neighbour sweep end up discovered -/

theorem runList_post (f : Nat) : ∀ (l : List (Nat × Nat)) (t : MState)
    (d : List (Nat × Nat)) (s' : MState) (d' : List (Nat × Nat)),
    t.playInitiated = true →
    runList (fun t d a b => discover_tile_backend f t d a b) t d l = some (s', d') →
    ∀ p ∈ l, t.flags p.1 p.2 = false → s'.discovery p.1 p.2 = true := by
  intro l
  induction l with
  | nil =>
    intro t d s' d' hp h p hpl
    cases hpl
  | cons q rest ih =>
    intro t d s' d' hp h p hpl hfp
    simp only [runList] at h
    cases hcall : discover_tile_backend f t d q.1 q.2 with
    | none => rw [hcall] at h; cases h
    | some o =>
      obtain ⟨o1, od, orr⟩ := o
      rw [hcall] at h
      have hso := (dtb_step f t d q.1 q.2 (o1, od, orr) hp hcall).1
      have hp1 : o1.playInitiated = true := by
        have := hso.2.2.2.2.2.1
        simp only [] at this
        rw [this]
        exact hp
      have hrest := @runList_inv (fun t d a b => discover_tile_backend f t d a b) Step
        (fun u => u.playInitiated = true)
        Step.refl (fun a b c => Step.trans)
        (fun t u hI hP => by
          show u.playInitiated = true
          rw [hP.2.2.2.2.2.1]
          exact hI)
        (fun t d a b out hI hcall => dtb_step f t d a b out hI hcall)
        rest o1 od (s', d') hp1 h
      rcases List.mem_cons.mp hpl with hq | hmem
      · subst hq
        have hdisc := dtb_post f t d p.1 p.2 (o1, od, orr) hp hcall hfp
        exact hrest.1.2.2.2.2.2.2.2.2 p.1 p.2 hdisc
      · exact ih o1 od s' d' hp1 h p hmem
          (by
            have := hso.2.2.1
            simp only [] at this
            rw [this]
            exact hfp)

/-! ### The board update and the win check -/

/-- The win condition checked by `update_game_board`:
`num_tiles - num_discovered == num_mines`. -/
def winCond (s : MState) : Prop := (s.x * s.y : Int) - s.numDiscovered = s.numMines

instance (s : MState) : Decidable (winCond s) := by
  unfold winCond
  infer_instance

theorem udb_fields (s : MState) :
    (update_game_board s).x = s.x ∧ (update_game_board s).y = s.y ∧
    (update_game_board s).discovery = s.discovery ∧
    (update_game_board s).flags = s.flags ∧
    (update_game_board s).mines = s.mines ∧
    (update_game_board s).numbers = s.numbers ∧
    (update_game_board s).numDiscovered = s.numDiscovered ∧
    (update_game_board s).numFlags = s.numFlags ∧
    (update_game_board s).numMines = s.numMines ∧
    (update_game_board s).playInitiated = s.playInitiated ∧
    (update_game_board s).lost = s.lost ∧
    (update_game_board s).updateList = s.updateList ∧
    (update_game_board s).mineRate = s.mineRate ∧
    (update_game_board s).derivative = (fun _ _ => (0 : Int)) := by
  rw [update_game_board]
  split
  · split
    · exact ⟨rfl, rfl, rfl, rfl, rfl, rfl, rfl, rfl, rfl, rfl, rfl, rfl, rfl, rfl⟩
    · exact ⟨rfl, rfl, rfl, rfl, rfl, rfl, rfl, rfl, rfl, rfl, rfl, rfl, rfl, rfl⟩
  · split
    · exact ⟨rfl, rfl, rfl, rfl, rfl, rfl, rfl, rfl, rfl, rfl, rfl, rfl, rfl, rfl⟩
    · exact ⟨rfl, rfl, rfl, rfl, rfl, rfl, rfl, rfl, rfl, rfl, rfl, rfl, rfl, rfl⟩

theorem udb_over (s : MState) :
    (update_game_board s).over = (if winCond s then true else s.over) := by
  rw [update_game_board]
  dsimp only
  by_cases hw : (s.x * s.y : Int) - s.numDiscovered = s.numMines
  · rw [if_pos hw]
    rw [if_pos (show winCond s from hw)]
    dsimp only
    split
    · rfl
    · rfl
  · rw [if_neg hw]
    rw [if_neg (show ¬ winCond s from hw)]
    dsimp only
    split
    · rfl
    · rfl

theorem udb_board (s : MState) (a b : Nat) :
    (update_game_board s).board a b =
      (if s.lost = true ∧ s.mines a b = false ∧ s.flags a b = true then -5
       else if winCond s ∧ s.mines a b = true then -1
       else s.board a b + s.derivative a b) := by
  rw [update_game_board]
  dsimp only
  by_cases hw : (s.x * s.y : Int) - s.numDiscovered = s.numMines
  · rw [if_pos hw]
    dsimp only
    have hwc : winCond s := hw
    by_cases hl : s.lost = true
    · rw [if_pos hl]
      dsimp only
      simp only [hl, hwc, true_and]
    · rw [if_neg hl]
      dsimp only
      simp [hl, hwc]
  · rw [if_neg hw]
    dsimp only
    have hwc : ¬ winCond s := hw
    by_cases hl : s.lost = true
    · rw [if_pos hl]
      dsimp only
      simp [hl, hwc]
    · rw [if_neg hl]
      dsimp only
      simp [hl, hwc]

theorem udb_lost (u : MState) : (update_game_board u).lost = u.lost :=
  (udb_fields u).2.2.2.2.2.2.2.2.2.2.1

theorem winCond_udb (s : MState) : winCond (update_game_board s) ↔ winCond s := by
  have h := udb_fields s
  unfold winCond
  rw [h.1, h.2.1, h.2.2.2.2.2.2.1, h.2.2.2.2.2.2.2.2.1]

theorem status_won_iff (s : MState) :
    status s = GStatus.won ↔ s.over = true ∧ s.lost = false := by
  unfold status
  cases hl : s.lost
  · cases ho : s.over
    · cases hp : s.playInitiated <;> simp
    · simp
  · simp

theorem status_lost_iff (s : MState) :
    status s = GStatus.lostGame ↔ s.lost = true := by
  unfold status
  cases hl : s.lost
  · cases ho : s.over
    · cases hp : s.playInitiated
      · simp
      · simp
    · simp
  · simp

/-- After the closing board update of a call whose starting state could
only be `over` by being lost, the session reads `Won` exactly when the
win condition holds and the game is not lost. -/
theorem udb_won_iff (u : MState) (h : u.over = true → u.lost = true) :
    status (update_game_board u) = GStatus.won ↔
      winCond (update_game_board u) ∧ (update_game_board u).lost = false := by
  rw [status_won_iff, winCond_udb, udb_over, (udb_fields u).2.2.2.2.2.2.2.2.2.2.1]
  by_cases hw : winCond u
  · simp [hw]
  · rw [if_neg hw]
    constructor
    · rintro ⟨ho, hl⟩
      rw [h ho] at hl
      cases hl
    · rintro ⟨hww, _⟩
      exact absurd hww hw

/-! ### Claim C1 -/

/-- The precondition under which a public call actually mutates state:
the game must not be over (checked separately) and a chord target must
already be discovered. -/
def mutPre (s : MState) : Move → Prop
  | Move.chord x y => s.discovery x y = true
  | _ => True

/-- C1 (amended): after a mutating public call (`discover`, `chord` or
`flag` passing its prechecks) from a state that is not over — and, as
in every reachable state, with no discovered cell before the first
successful move — the resulting status reads `Won` if and only if
`num_tiles - num_discovered = num_mines` holds in the resulting state
and the game is not lost.  (The unamended claim drops the "not lost"
conjunct; `claim_C1_counterexample` refutes it.) -/
theorem claim_C1_won_iff (fuel : Nat) (s : MState) (draws : List (Nat × Nat))
    (m : Move) (out : MState × List (Nat × Nat) × Bool)
    (hover : s.over = false)
    (hpd : s.playInitiated = false → ∀ a b, s.discovery a b = false)
    (hmut : mutPre s m)
    (happ : applyMove fuel s draws m = some out) :
    status out.1 = GStatus.won ↔ (winCond out.1 ∧ out.1.lost = false) := by
  cases m with
  | disc x y =>
    simp only [applyMove, discover_tile] at happ
    rw [if_neg (by simp [hover])] at happ
    split at happ
    · cases happ
    · rename_i s1 d1 r hdtb
      cases happ
      refine udb_won_iff s1 ?_
      intro ho1
      rcases dtb_over fuel _ draws x y (s1, d1, r) hdtb ho1 with hcontra | hl
      · exact absurd hcontra (by simp [hover])
      · exact hl
  | chord x y =>
    simp only [mutPre] at hmut
    simp only [applyMove, test_number_tile] at happ
    rw [if_neg (by simp [hover, hmut])] at happ
    have hp : s.playInitiated = true := by
      rcases Bool.eq_false_or_eq_true s.playInitiated with h | h
      · exact h
      · rw [hpd h x y] at hmut
        cases hmut
    split at happ
    · split at happ
      · cases happ
      · rename_i s1 d1 hrl
        cases happ
        refine udb_won_iff s1 ?_
        intro ho1
        have hmain := @runList_inv (discover_tile_backend (s.x * s.y + 1)) Step
          (fun u => u.playInitiated = true)
          Step.refl (fun a b c => Step.trans)
          (fun t u hI hP => by
            show u.playInitiated = true
            rw [hP.2.2.2.2.2.1]
            exact hI)
          (fun t d a b o hI hcall =>
            dtb_step (s.x * s.y + 1) t d a b o hI hcall)
          (get_legal_neighbors s.x s.y x y) { s with updateList := [] }
          draws (s1, d1) (by exact hp) hrl
        rcases hmain.1.2.2.2.2.2.2.2.1 ho1 with hcontra | hl
        · exact absurd hcontra (by simp [hover])
        · exact hl
    · cases happ
      refine udb_won_iff _ ?_
      intro ho1
      exact absurd ho1 (by simp [hover])
  | flag x y =>
    simp only [applyMove, flag_tile] at happ
    rw [if_neg (by simp [hover])] at happ
    split at happ
    · cases happ
      refine udb_won_iff _ ?_
      intro ho1
      exact absurd ho1 (by simp [hover])
    · split at happ
      · cases happ
        refine udb_won_iff _ ?_
        intro ho1
        exact absurd ho1 (by simp [hover])
      · cases happ
        refine udb_won_iff _ ?_
        intro ho1
        exact absurd ho1 (by simp [hover])

/-! ### Concrete sessions used as counterexamples and witnesses -/

/-- A 5×1 session with one mine drawn at (3,0): adjacency numbers are
`[0, 0, 1, _, 1]`. -/
def exInit5 : MState :=
  match init_game_state 5 1 (some 1) (0, 1) [(3, 0)] with
  | Except.ok (some (st, _)) => st
  | _ => dummyState

/-- The 5×1 session after `discover(0,0)`: the flood reveals cells
(0,0), (1,0), (2,0); two cells stay hidden, the game is running. -/
def exMid5 : MState :=
  ((discover_tile 10 exInit5 [] 0 0).getD (dummyState, [], false)).1

/-- The 5×1 session after additionally discovering the mine at (3,0):
the game is lost, but `tiles - discovered = mines` holds because the
discovery counter also counted the mine. -/
def exFinal5 : MState :=
  ((discover_tile 10 exMid5 [] 3 0).getD (dummyState, [], false)).1

/-- C1 (counterexample): in a reachable session (5×1 board, one mine,
flood at (0,0), then the mine at (3,0) is discovered while exactly one
safe cell is still hidden), the mutating call leaves the state with
`discovered_count + mine_count = tiles` but the status is `Lost`, not
`Won` — refuting the claimed "Won if and only if" equivalence. -/
theorem claim_C1_counterexample :
    applyMove 10 exMid5 [] (Move.disc 3 0) = some (exFinal5, [], true) ∧
    exMid5.over = false ∧
    winCond exFinal5 ∧ status exFinal5 ≠ GStatus.won ∧
    status exFinal5 = GStatus.lostGame := by
  refine ⟨rfl, by decide, by decide, by decide, by decide⟩

/-- Witness for C1 (amended) at the same concrete mutating call. -/
theorem claim_C1_won_iff_witness :
    exMid5.over = false ∧
    (status exFinal5 = GStatus.won ↔ (winCond exFinal5 ∧ exFinal5.lost = false)) :=
  ⟨by decide,
    claim_C1_won_iff 10 exMid5 [] (Move.disc 3 0) (exFinal5, [], true)
      (by decide) (fun h => absurd h (by decide)) trivial rfl⟩

/-! ### Claim C4 -/

/-- C4 (amended): discovering an undiscovered, unflagged mine (after
the first move, in a consistent not-over state whose board carries the
base encoding, with a clear derivative and no discovered mine) loses
the game and displays −3 on every other unflagged mine, −4 on the
target, −5 on every flagged non-mine and −1 on every flagged mine —
PROVIDED the win check `tiles - (discovered+1) = mines` does not fire
on this call (when it does, every mine is overwritten with −1;
`claim_C4_counterexample` shows the unamended claim fails there). -/
theorem claim_C4_loss_display (fuel : Nat) (s : MState) (draws : List (Nat × Nat))
    (x y : Nat) (out : MState × List (Nat × Nat) × Bool)
    (hover : s.over = false) (hlost : s.lost = false)
    (hp : s.playInitiated = true)
    (hmine : s.mines x y = true) (hflag : s.flags x y = false)
    (hdisc : s.discovery x y = false)
    (hboard : ∀ a, a < s.x → ∀ b, b < s.y →
      s.board a b = build_game_board s.discovery s.flags s.numbers a b)
    (hderiv : ∀ a, a < s.x → ∀ b, b < s.y → s.derivative a b = 0)
    (hnodiscmine : ∀ a, a < s.x → ∀ b, b < s.y →
      s.mines a b = true → s.discovery a b = false)
    (hedge : ¬ ((s.x * s.y : Int) - (s.numDiscovered + 1) = s.numMines))
    (happ : discover_tile fuel s draws x y = some out) :
    status out.1 = GStatus.lostGame ∧ out.2.2 = true ∧
    ∀ a, a < s.x → ∀ b, b < s.y →
      ((s.mines a b = true ∧ s.flags a b = false ∧ ¬(a = x ∧ b = y)) →
        out.1.board a b = -3) ∧
      ((a = x ∧ b = y) → out.1.board a b = -4) ∧
      ((s.mines a b = false ∧ s.flags a b = true) → out.1.board a b = -5) ∧
      ((s.mines a b = true ∧ s.flags a b = true) → out.1.board a b = -1) := by
  cases fuel with
  | zero =>
    rw [discover_tile, if_neg (by simp [hover])] at happ
    simp [discover_tile_backend] at happ
  | succ f =>
    rw [discover_tile, if_neg (by simp [hover])] at happ
    rw [discover_tile_backend] at happ
    rw [if_neg (by simp [hflag])] at happ
    rw [if_neg (by simp [hp])] at happ
    simp only [hp, if_true] at happ
    rw [if_neg (by simp [hdisc])] at happ
    rw [if_pos (by simp [hmine])] at happ
    cases happ
    constructor
    · rw [status_lost_iff, udb_lost]
    · constructor
      · rfl
      · intro a ha b hb
        have hwc : ¬ winCond
            { s with discovery := updB s.discovery x y true,
                     over := true, lost := true,
                     playInitiated := true,
                     derivative := (updI (fun a b => s.derivative a b -
                        (bInt s.mines a b -
                          (if s.mines a b = true then bInt s.flags a b else 0)))
                        x y ((s.derivative x y -
                          (bInt s.mines x y - bInt s.flags x y)) - 1)),
                     numDiscovered := s.numDiscovered + 1,
                     updateList := [] ++ [(x, y)] } := by
          intro hc
          exact hedge hc
        refine ⟨?_, ?_, ?_, ?_⟩
        · rintro ⟨ham, haf, hane⟩
          rw [udb_board]
          dsimp only
          rw [if_neg (by rintro ⟨_, hmm, _⟩; rw [ham] at hmm; cases hmm)]
          rw [if_neg (by rintro ⟨hww, _⟩; exact hwc hww)]
          have hdm := hnodiscmine a ha b hb ham
          rw [hboard a ha b hb]
          simp [build_game_board, updI, bInt, hdm, haf, ham, hane,
            hderiv a ha b hb]
        · rintro ⟨hax, hay⟩
          subst hax
          subst hay
          rw [udb_board]
          dsimp only
          rw [if_neg (by rintro ⟨_, hmm, _⟩; rw [hmine] at hmm; cases hmm)]
          rw [if_neg (by rintro ⟨hww, _⟩; exact hwc hww)]
          rw [hboard a ha b hb]
          simp [build_game_board, updI, bInt, hdisc, hflag, hmine,
            hderiv a ha b hb]
        · rintro ⟨ham, haf⟩
          rw [udb_board]
          dsimp only
          rw [if_pos ⟨rfl, ham, haf⟩]
        · rintro ⟨ham, haf⟩
          have hane : ¬ (a = x ∧ b = y) := by
            rintro ⟨hax, hay⟩
            subst hax
            subst hay
            rw [haf] at hflag
            cases hflag
          rw [udb_board]
          dsimp only
          rw [if_neg (by rintro ⟨_, hmm, _⟩; rw [ham] at hmm; cases hmm)]
          rw [if_neg (by rintro ⟨hww, _⟩; exact hwc hww)]
          have hdm := hnodiscmine a ha b hb ham
          rw [hboard a ha b hb]
          simp [build_game_board, updI, bInt, hdm, haf, ham, hane,
            hderiv a ha b hb]

/-- C4 (counterexample): in the reachable 5×1 session, discovering the
undiscovered unflagged mine at (3,0) while one safe cell remains makes
the win check fire on the same call, so the detonated mine is
displayed as −1 instead of the claimed −4. -/
theorem claim_C4_counterexample :
    exMid5.mines 3 0 = true ∧ exMid5.flags 3 0 = false ∧
    exMid5.discovery 3 0 = false ∧ exMid5.over = false ∧
    discover_tile 10 exMid5 [] 3 0 = some (exFinal5, [], true) ∧
    status exFinal5 = GStatus.lostGame ∧
    exFinal5.board 3 0 = -1 ∧ ((-1 : Int) = -4 → False) := by
  refine ⟨by decide, by decide, by decide, by decide, rfl, by decide, by decide,
    by decide⟩

/-- A hand-built mid-game 3×1 state: one mine at (2,0), a (wrong) flag
at (0,0), nothing discovered, board in the base encoding. -/
def c4wState : MState where
  x := 3
  y := 1
  numMines := 1
  mineRate := (1, 3)
  over := false
  lost := false
  playInitiated := true
  discovery := fun _ _ => false
  numDiscovered := 0
  flags := fun a b => decide (a = 0 ∧ b = 0)
  numFlags := 1
  mines := fun a b => decide (a = 2 ∧ b = 0)
  numbers := fun a b => if a = 1 ∧ b = 0 then 1 else 0
  board := build_game_board (fun _ _ => false)
    (fun a b => decide (a = 0 ∧ b = 0)) (fun a b => if a = 1 ∧ b = 0 then 1 else 0)
  derivative := fun _ _ => 0
  updateList := []

/-- The result of discovering the mine of `c4wState`. -/
def c4wOut : MState × List (Nat × Nat) × Bool :=
  (discover_tile 5 c4wState [] 2 0).getD (dummyState, [], false)

/-- Witness for C4 (amended): the hypotheses hold at `c4wState` with
target (2,0), and the amended display conclusions follow. -/
theorem claim_C4_loss_display_witness :
    c4wState.mines 2 0 = true ∧ c4wState.flags 2 0 = false ∧
    (status c4wOut.1 = GStatus.lostGame ∧ c4wOut.2.2 = true ∧
      ∀ a, a < c4wState.x → ∀ b, b < c4wState.y →
        ((c4wState.mines a b = true ∧ c4wState.flags a b = false ∧
            ¬(a = 2 ∧ b = 0)) → c4wOut.1.board a b = -3) ∧
        ((a = 2 ∧ b = 0) → c4wOut.1.board a b = -4) ∧
        ((c4wState.mines a b = false ∧ c4wState.flags a b = true) →
          c4wOut.1.board a b = -5) ∧
        ((c4wState.mines a b = true ∧ c4wState.flags a b = true) →
          c4wOut.1.board a b = -1)) :=
  ⟨by decide, by decide,
    claim_C4_loss_display 5 c4wState [] 2 0 c4wOut
      (by decide) (by decide) (by decide) (by decide) (by decide) (by decide)
      (by decide) (by decide) (by decide) (by decide) rfl⟩

/-! ### Claim C2 -/

/-- C2: a `discover_tile` call that starts with `play_initiated` false
and returns `true` leaves the target with adjacency number 0 and no
mine (in the final, possibly regenerated grid), switches
`play_initiated` on, and preserves the flag state of every cell across
all regenerations. -/
theorem claim_C2_first_move_safe (fuel : Nat) (s : MState)
    (draws : List (Nat × Nat)) (x y : Nat)
    (out : MState × List (Nat × Nat) × Bool)
    (hp : s.playInitiated = false)
    (happ : discover_tile fuel s draws x y = some out)
    (hres : out.2.2 = true) :
    out.1.numbers x y = 0 ∧ out.1.mines x y = false ∧
    out.1.playInitiated = true ∧ ∀ a b, out.1.flags a b = s.flags a b := by
  rw [discover_tile] at happ
  split at happ
  · cases happ
    cases hres
  · split at happ
    · cases happ
    · rename_i s1 d1 r hdtb
      cases happ
      have hmain := dtb_first_success fuel { s with updateList := [] } draws x y
        (s1, d1, r) (by exact hp) hdtb hres
      have hfu := udb_fields s1
      refine ⟨?_, ?_, ?_, ?_⟩
      · show (update_game_board s1).numbers x y = 0
        rw [hfu.2.2.2.2.2.1]
        exact hmain.1
      · show (update_game_board s1).mines x y = false
        rw [hfu.2.2.2.2.1]
        exact hmain.2.1
      · show (update_game_board s1).playInitiated = true
        rw [hfu.2.2.2.2.2.2.2.2.2.1]
        exact hmain.2.2.1
      · intro a b
        show (update_game_board s1).flags a b = s.flags a b
        rw [hfu.2.2.2.1, hmain.2.2.2]

/-- A 4×1 session with one mine drawn at (1,0): the first click at
(0,0) is unsafe because its adjacency number is 1. -/
def exInit4 : MState :=
  match init_game_state 4 1 (some 1) (0, 1) [(1, 0)] with
  | Except.ok (some (st, _)) => st
  | _ => dummyState

/-- The 4×1 session after flagging (2,0): one flag, counter 1. -/
def exFlag4 : MState := (flag_tile exInit4 2 0).1

/-- The outcome of the first discover at (0,0), which regenerates the
grid once (new mine drawn at (3,0)) and then flood-reveals. -/
def c2out : MState × List (Nat × Nat) × Bool :=
  (discover_tile 10 exFlag4 [(3, 0)] 0 0).getD (dummyState, [], false)

/-- Witness for C2 at a concrete run with one regeneration. -/
theorem claim_C2_first_move_safe_witness :
    exFlag4.playInitiated = false ∧ exFlag4.numbers 0 0 = 1 ∧
    (c2out.1.numbers 0 0 = 0 ∧ c2out.1.mines 0 0 = false ∧
      c2out.1.playInitiated = true ∧ ∀ a b, c2out.1.flags a b = exFlag4.flags a b) :=
  ⟨by decide, by decide,
    claim_C2_first_move_safe 10 exFlag4 [(3, 0)] 0 0 c2out (by decide) rfl
      (by decide)⟩

/-! ### Claim C6 -/

/-- The number of flagged in-range cells of a state. -/
def flagCount (s : MState) : Nat :=
  ((Finset.range s.x ×ˢ Finset.range s.y).filter
    (fun p => s.flags p.1 p.2 = true)).card

/-- C6 (code bug): the claimed invariant `flag_count = number of
flagged cells` is broken by the first-move regeneration: the
regeneration preserves the flag tensor but resets `num_flags` to 0
without recounting.  Concretely, after flagging one cell and taking a
first move that regenerates, one cell is still flagged while the
counter reads 0. -/
theorem claim_C6_flag_counter_bug :
    exFlag4.numFlags = 1 ∧ flagCount exFlag4 = 1 ∧
    c2out.2.2 = true ∧
    (∀ a b, c2out.1.flags a b = exFlag4.flags a b) ∧
    c2out.1.numFlags = 0 ∧ flagCount c2out.1 = 1 := by
  refine ⟨by decide, by decide, by decide, fun a b => rfl, by decide, by decide⟩

/-! ### Claim C9 -/

/-- The effective mine count of an initialization request: the
explicit count, or `int(mine_rate * tiles)` when none is given. -/
def effMines (x y : Int) (mines : Option Int) (rate : Int × Nat) : Int :=
  match mines with
  | some m => m
  | none => pyInt (((x.toNat * y.toNat : Nat) : Int) * rate.1, rate.2)

/-- C9: `initialize_game_state` fails with a configuration error
exactly when a dimension is non-positive or the (explicit or derived)
mine count exceeds the tile count; a successful validation never
errors afterwards (mine placement can only exhaust the draw supply,
which in python means looping, not raising). -/
theorem claim_C9_init_errors (x y : Int) (mines : Option Int) (rate : Int × Nat)
    (draws : List (Nat × Nat)) :
    (∃ e, init_game_state x y mines rate draws = Except.error e) ↔
      (x ≤ 0 ∨ y ≤ 0 ∨ effMines x y mines rate > ((x.toNat * y.toNat : Nat) : Int)) := by
  rw [init_game_state]
  by_cases hsh : x ≤ 0 ∨ y ≤ 0
  · rw [if_pos hsh]
    constructor
    · intro _
      rcases hsh with h | h
      · exact Or.inl h
      · exact Or.inr (Or.inl h)
    · intro _
      exact ⟨InitError.illegalShape, rfl⟩
  · rw [if_neg hsh]
    push_neg at hsh
    cases mines with
    | some m =>
      simp only [effMines]
      by_cases hm : (m : Int) > ((x.toNat * y.toNat : Nat) : Int)
      · rw [if_pos hm]
        constructor
        · intro _
          exact Or.inr (Or.inr hm)
        · intro _
          exact ⟨InitError.tooManyMines, rfl⟩
      · rw [if_neg hm]
        constructor
        · rintro ⟨e, he⟩
          split at he
          · cases he
          · cases he
        · rintro (h | h | h)
          · exact absurd h (by omega)
          · exact absurd h (by omega)
          · exact absurd h hm
    | none =>
      simp only [effMines]
      by_cases hm : pyInt (((x.toNat * y.toNat : Nat) : Int) * rate.1, rate.2) >
          ((x.toNat * y.toNat : Nat) : Int)
      · rw [if_pos hm]
        constructor
        · intro _
          exact Or.inr (Or.inr hm)
        · intro _
          exact ⟨InitError.tooManyMines, rfl⟩
      · rw [if_neg hm]
        constructor
        · rintro ⟨e, he⟩
          split at he
          · cases he
          · cases he
        · rintro (h | h | h)
          · exact absurd h (by omega)
          · exact absurd h (by omega)
          · exact absurd h hm

/-- Witness for C9 at concrete configurations (an illegal width and an
excessive explicit mine count). -/
theorem claim_C9_init_errors_witness :
    ((∃ e, init_game_state 0 5 none (33, 160) [] = Except.error e) ↔
      ((0 : Int) ≤ 0 ∨ (5 : Int) ≤ 0 ∨
        effMines 0 5 none (33, 160) > (((0 : Int).toNat * (5 : Int).toNat : Nat) : Int))) ∧
    ((∃ e, init_game_state 2 2 (some 5) (33, 160) [] = Except.error e) ↔
      ((2 : Int) ≤ 0 ∨ (2 : Int) ≤ 0 ∨
        effMines 2 2 (some 5) (33, 160) > (((2 : Int).toNat * (2 : Int).toNat : Nat) : Int))) :=
  ⟨claim_C9_init_errors 0 5 none (33, 160) [],
    claim_C9_init_errors 2 2 (some 5) (33, 160) []⟩

/-! ### Claim C10 -/

/-- C10: a `flag_tile` call on an in-range coordinate never changes the
mine layout, the adjacency numbers, or any cell's discovery state, and
no cell other than the target changes its flag state. -/
theorem claim_C10_flag_frame (s : MState) (x y : Nat)
    (hx : x < s.x) (hy : y < s.y) :
    (flag_tile s x y).1.mines = s.mines ∧
    (flag_tile s x y).1.numbers = s.numbers ∧
    (∀ a b, (flag_tile s x y).1.discovery a b = s.discovery a b) ∧
    (∀ a b, ¬(a = x ∧ b = y) → (flag_tile s x y).1.flags a b = s.flags a b) := by
  rw [flag_tile]
  split
  · exact ⟨rfl, rfl, fun _ _ => rfl, fun _ _ _ => rfl⟩
  · dsimp only
    split
    · refine ⟨(udb_fields _).2.2.2.2.1, (udb_fields _).2.2.2.2.2.1, ?_, ?_⟩
      · intro a b
        rw [(udb_fields _).2.2.1]
      · intro a b hne
        rw [(udb_fields _).2.2.2.1]
    · split
      · refine ⟨(udb_fields _).2.2.2.2.1, (udb_fields _).2.2.2.2.2.1, ?_, ?_⟩
        · intro a b
          rw [(udb_fields _).2.2.1]
        · intro a b hne
          rw [(udb_fields _).2.2.2.1]
          show updB s.flags x y false a b = s.flags a b
          rw [updB]
          rw [if_neg hne]
      · refine ⟨(udb_fields _).2.2.2.2.1, (udb_fields _).2.2.2.2.2.1, ?_, ?_⟩
        · intro a b
          rw [(udb_fields _).2.2.1]
        · intro a b hne
          rw [(udb_fields _).2.2.2.1]
          show updB s.flags x y true a b = s.flags a b
          rw [updB]
          rw [if_neg hne]

/-- Witness for C10 at a concrete flag call. -/
theorem claim_C10_flag_frame_witness :
    (0 < exInit4.x ∧ 0 < exInit4.y) ∧
    ((flag_tile exInit4 0 0).1.mines = exInit4.mines ∧
      (flag_tile exInit4 0 0).1.numbers = exInit4.numbers ∧
      (∀ a b, (flag_tile exInit4 0 0).1.discovery a b = exInit4.discovery a b) ∧
      (∀ a b, ¬(a = 0 ∧ b = 0) →
        (flag_tile exInit4 0 0).1.flags a b = exInit4.flags a b)) :=
  ⟨⟨by decide, by decide⟩, claim_C10_flag_frame exInit4 0 0 (by decide) (by decide)⟩

/-! ### Claim C7 -/

/-- A backend call that reports failure leaves the state exactly as it
was (when, as in every reachable state, discovery is empty before the
first successful move: the only false results come from a flagged or
an already-discovered target). -/
theorem dtb_false_id (fuel : Nat) (t : MState) (d : List (Nat × Nat))
    (x y : Nat) (out : MState × List (Nat × Nat) × Bool)
    (hpd : t.playInitiated = false → ∀ a b, t.discovery a b = false)
    (h : discover_tile_backend fuel t d x y = some out)
    (hr : out.2.2 = false) : out.1 = t ∧ out.2.1 = d := by
  cases fuel with
  | zero => simp [discover_tile_backend] at h
  | succ f =>
    by_cases hflag : t.flags x y = true
    · rw [discover_tile_backend, if_pos hflag] at h
      cases h
      exact ⟨rfl, rfl⟩
    · rcases Bool.eq_false_or_eq_true t.playInitiated with hp | hp
      · rw [discover_tile_backend] at h
        rw [if_neg hflag] at h
        rw [if_neg (by simp [hp])] at h
        simp only [hp, if_true] at h
        by_cases hd : t.discovery x y = true
        · rw [if_pos hd] at h
          cases h
          exact ⟨rfl, rfl⟩
        · rw [if_neg hd] at h
          by_cases hm : t.mines x y = true
          · rw [if_pos hm] at h
            cases h
            cases hr
          · rw [if_neg hm] at h
            by_cases hz : t.numbers x y = 0
            · rw [if_pos hz] at h
              split at h
              · cases h
              · cases h
                cases hr
            · rw [if_neg hz] at h
              cases h
              cases hr
      · have := dtb_first_not_false (f + 1) t d x y out hp
          (by revert hflag; cases t.flags x y <;> simp) (hpd hp) h
        rw [this] at hr
        cases hr

/-- Frame of the closing board update on a state equal to the caller
state with a cleared pending list, when the derivative is clear, the
game is not lost and the win check does not fire: everything
observable is preserved and the update list is empty. -/
theorem udb_cleared_frame (s : MState)
    (hderiv : ∀ a, a < s.x → ∀ b, b < s.y → s.derivative a b = 0)
    (hlost : s.lost = false)
    (hwin : ¬ winCond s) :
    (update_game_board { s with updateList := [] }).x = s.x ∧
    (update_game_board { s with updateList := [] }).y = s.y ∧
    (∀ a b, (update_game_board { s with updateList := [] }).discovery a b =
      s.discovery a b) ∧
    (∀ a b, (update_game_board { s with updateList := [] }).flags a b =
      s.flags a b) ∧
    (∀ a b, (update_game_board { s with updateList := [] }).mines a b =
      s.mines a b) ∧
    (∀ a b, (update_game_board { s with updateList := [] }).numbers a b =
      s.numbers a b) ∧
    (∀ a, a < s.x → ∀ b, b < s.y →
      (update_game_board { s with updateList := [] }).board a b = s.board a b) ∧
    (update_game_board { s with updateList := [] }).numDiscovered =
      s.numDiscovered ∧
    (update_game_board { s with updateList := [] }).numFlags = s.numFlags ∧
    (update_game_board { s with updateList := [] }).numMines = s.numMines ∧
    (update_game_board { s with updateList := [] }).over = s.over ∧
    (update_game_board { s with updateList := [] }).lost = s.lost ∧
    (update_game_board { s with updateList := [] }).playInitiated =
      s.playInitiated ∧
    (update_game_board { s with updateList := [] }).updateList = [] := by
  have hf := udb_fields { s with updateList := [] }
  refine ⟨hf.1, hf.2.1, fun a b => by rw [hf.2.2.1],
    fun a b => by rw [hf.2.2.2.1], fun a b => by rw [hf.2.2.2.2.1],
    fun a b => by rw [hf.2.2.2.2.2.1], ?_, hf.2.2.2.2.2.2.1,
    hf.2.2.2.2.2.2.2.1, hf.2.2.2.2.2.2.2.2.1, ?_,
    hf.2.2.2.2.2.2.2.2.2.2.1, hf.2.2.2.2.2.2.2.2.2.1,
    hf.2.2.2.2.2.2.2.2.2.2.2.1⟩
  · intro a ha b hb
    rw [udb_board]
    dsimp only
    rw [if_neg (by rintro ⟨hll, _, _⟩; rw [hlost] at hll; cases hll)]
    rw [if_neg (by rintro ⟨hww, _⟩; exact hwin hww)]
    rw [hderiv a ha b hb]
    simp
  · rw [udb_over]
    rw [if_neg (show ¬ winCond { s with updateList := [] } from hwin)]

/-- The precheck of a public call: the branch in which the source
clears the pending-update list and runs its backend.  `discover` and
`flag` require only that the game is not over; `chord` additionally
requires the target to be discovered.  A call failing its precheck
returns `false` without touching anything. -/
def passes_precheck (s : MState) : Move → Prop
  | Move.disc _ _ => s.over = false
  | Move.chord x y => s.over = false ∧ s.discovery x y = true
  | Move.flag _ _ => s.over = false

/-- C7 (amended): a public call that returns `false` leaves every
observable component of the engine unchanged — grids, counters, status
and in-range board — except the pending-update list, which it may have
cleared (discover/flag clear it exactly when the game-over precheck
passes, chord when its over/undiscovered precheck passes; a call
failing its precheck changes nothing at all, pending list included).
The derivative-zero and empty-discovery-before-first-move hypotheses
hold in every reachable state; the not-lost and not-at-win-condition
hypotheses are demanded only of calls that pass their precheck, and
hold at every reachable false-returning call (lost implies over in
reachable states, and the only reachable not-over states satisfying
the win condition are freshly initialized all-mine boards, from which
no precheck-passing call returns false: discover loops in the
regeneration and flag returns true). -/
theorem claim_C7_failed_calls (fuel : Nat) (s : MState)
    (draws : List (Nat × Nat)) (m : Move)
    (out : MState × List (Nat × Nat) × Bool)
    (hderiv : ∀ a, a < s.x → ∀ b, b < s.y → s.derivative a b = 0)
    (hlost : passes_precheck s m → s.lost = false)
    (hwin : passes_precheck s m → ¬ winCond s)
    (hpd : s.playInitiated = false → ∀ a b, s.discovery a b = false)
    (happ : applyMove fuel s draws m = some out)
    (hres : out.2.2 = false) :
    out.1.x = s.x ∧ out.1.y = s.y ∧
    (∀ a b, out.1.discovery a b = s.discovery a b) ∧
    (∀ a b, out.1.flags a b = s.flags a b) ∧
    (∀ a b, out.1.mines a b = s.mines a b) ∧
    (∀ a b, out.1.numbers a b = s.numbers a b) ∧
    (∀ a, a < s.x → ∀ b, b < s.y → out.1.board a b = s.board a b) ∧
    out.1.numDiscovered = s.numDiscovered ∧ out.1.numFlags = s.numFlags ∧
    out.1.numMines = s.numMines ∧ out.1.over = s.over ∧ out.1.lost = s.lost ∧
    out.1.playInitiated = s.playInitiated ∧
    (out.1.updateList = s.updateList ∨ out.1.updateList = []) := by
  have hudb : s.lost = false → ¬ winCond s →
      ∀ u : MState, u = { s with updateList := [] } →
      (update_game_board u).x = s.x ∧ (update_game_board u).y = s.y ∧
      (∀ a b, (update_game_board u).discovery a b = s.discovery a b) ∧
      (∀ a b, (update_game_board u).flags a b = s.flags a b) ∧
      (∀ a b, (update_game_board u).mines a b = s.mines a b) ∧
      (∀ a b, (update_game_board u).numbers a b = s.numbers a b) ∧
      (∀ a, a < s.x → ∀ b, b < s.y → (update_game_board u).board a b = s.board a b) ∧
      (update_game_board u).numDiscovered = s.numDiscovered ∧
      (update_game_board u).numFlags = s.numFlags ∧
      (update_game_board u).numMines = s.numMines ∧
      (update_game_board u).over = s.over ∧
      (update_game_board u).lost = s.lost ∧
      (update_game_board u).playInitiated = s.playInitiated ∧
      ((update_game_board u).updateList = s.updateList ∨
        (update_game_board u).updateList = []) := by
    intro hlost2 hwin2 u hu
    subst hu
    have hc := udb_cleared_frame s hderiv hlost2 hwin2
    exact ⟨hc.1, hc.2.1, hc.2.2.1, hc.2.2.2.1, hc.2.2.2.2.1, hc.2.2.2.2.2.1,
      hc.2.2.2.2.2.2.1, hc.2.2.2.2.2.2.2.1, hc.2.2.2.2.2.2.2.2.1,
      hc.2.2.2.2.2.2.2.2.2.1, hc.2.2.2.2.2.2.2.2.2.2.1,
      hc.2.2.2.2.2.2.2.2.2.2.2.1, hc.2.2.2.2.2.2.2.2.2.2.2.2.1,
      Or.inr hc.2.2.2.2.2.2.2.2.2.2.2.2.2⟩
  cases m with
  | disc x y =>
    simp only [applyMove, discover_tile] at happ
    split at happ
    · cases happ
      exact ⟨rfl, rfl, fun _ _ => rfl, fun _ _ => rfl, fun _ _ => rfl,
        fun _ _ => rfl, fun _ _ _ _ => rfl, rfl, rfl, rfl, rfl, rfl, rfl,
        Or.inl rfl⟩
    · rename_i hov
      have hpre : passes_precheck s (Move.disc x y) := by
        show s.over = false
        revert hov
        cases s.over <;> simp
      split at happ
      · cases happ
      · rename_i s1 d1 r hdtb
        cases happ
        have hid := dtb_false_id fuel { s with updateList := [] } draws x y
          (s1, d1, r) (by exact hpd) hdtb hres
        have := hid.1
        simp only [] at this
        rw [this]
        exact hudb (hlost hpre) (hwin hpre) _ rfl
  | chord x y =>
    simp only [applyMove, test_number_tile] at happ
    split at happ
    · cases happ
      exact ⟨rfl, rfl, fun _ _ => rfl, fun _ _ => rfl, fun _ _ => rfl,
        fun _ _ => rfl, fun _ _ _ _ => rfl, rfl, rfl, rfl, rfl, rfl, rfl,
        Or.inl rfl⟩
    · rename_i hcond
      push_neg at hcond
      have hpre : passes_precheck s (Move.chord x y) := by
        refine ⟨?_, ?_⟩
        · have := hcond.1
          revert this
          cases s.over <;> simp
        · have := hcond.2
          revert this
          cases s.discovery x y <;> simp
      dsimp only at happ
      split at happ
      · split at happ
        · cases happ
        · cases happ
          cases hres
      · cases happ
        exact hudb (hlost hpre) (hwin hpre) _ rfl
  | flag x y =>
    simp only [applyMove, flag_tile] at happ
    split at happ
    · cases happ
      exact ⟨rfl, rfl, fun _ _ => rfl, fun _ _ => rfl, fun _ _ => rfl,
        fun _ _ => rfl, fun _ _ _ _ => rfl, rfl, rfl, rfl, rfl, rfl, rfl,
        Or.inl rfl⟩
    · rename_i hov
      have hpre : passes_precheck s (Move.flag x y) := by
        show s.over = false
        revert hov
        cases s.over <;> simp
      split at happ
      · cases happ
        exact hudb (hlost hpre) (hwin hpre) _ rfl
      · split at happ
        · cases happ
          cases hres
        · cases happ
          cases hres

/-- A 2×1 zero-mine session. -/
def exInit2 : MState :=
  match init_game_state 2 1 (some 0) (0, 1) [] with
  | Except.ok (some (st, _)) => st
  | _ => dummyState

/-- The 2×1 session after flagging (1,0): the pending list holds that
coordinate. -/
def exFlag2 : MState := (flag_tile exInit2 1 0).1

/-- The outcome of trying to discover the flagged cell (1,0). -/
def c7out : MState × List (Nat × Nat) × Bool :=
  (discover_tile 5 exFlag2 [] 1 0).getD (dummyState, [], false)

/-- C7 (counterexample): discovering a flagged cell returns `false`,
yet the externally observable pending-update list is wiped (it held
(1,0) before the call and is empty afterwards) — the call is not a
no-op as claimed. -/
theorem claim_C7_counterexample :
    exFlag2.updateList = [(1, 0)] ∧
    discover_tile 5 exFlag2 [] 1 0 = some (c7out.1, c7out.2.1, c7out.2.2) ∧
    c7out.2.2 = false ∧ c7out.1.updateList = [] ∧
    (c7out.1.updateList = exFlag2.updateList → False) := by
  refine ⟨by decide, rfl, by decide, by decide, by decide⟩

/-- Witness for C7 (amended) at two concrete failed calls: a discover
rejected because the target is flagged (precheck passed, list
cleared), and a discover rejected because the game is over (precheck
failed, nothing touched, conditioned hypotheses vacuous). -/
theorem claim_C7_failed_calls_witness :
    exFlag2.lost = false ∧ exFinal5.over = true ∧
    (c7out.1.updateList = exFlag2.updateList ∨ c7out.1.updateList = []) ∧
    ((exFinal5, ([] : List (Nat × Nat)), false).1.updateList =
        exFinal5.updateList ∨
      (exFinal5, ([] : List (Nat × Nat)), false).1.updateList = []) :=
  ⟨by decide, by decide,
    (claim_C7_failed_calls 5 exFlag2 [] (Move.disc 1 0) c7out
      (by decide) (fun _ => by decide) (fun _ => by decide)
      (fun _ a b => rfl) rfl
      (by decide)).2.2.2.2.2.2.2.2.2.2.2.2.2,
    (claim_C7_failed_calls 5 exFinal5 [] (Move.disc 0 0) (exFinal5, [], false)
      (by decide)
      (fun hp => absurd (show exFinal5.over = false from hp) (by decide))
      (fun hp => absurd (show exFinal5.over = false from hp) (by decide))
      (fun hp => absurd hp (by decide))
      rfl (by decide)).2.2.2.2.2.2.2.2.2.2.2.2.2⟩

/-! ### Claim C5 -/

/-- The count of flagged cells among the legal neighbors of (x,y),
as `__test_number_tile_backend` computes it. -/
def flagNbrCount (s : MState) (x y : Nat) : Nat :=
  (get_legal_neighbors s.x s.y x y).foldl
    (fun acc p => acc + (if s.flags p.1 p.2 = true then 1 else 0)) 0

/-- C5 (amended): for a chord on a discovered cell with the game not
over (and play initiated, with a clear derivative, not lost and not
at the win condition, as in every reachable such state): the call
returns `true` exactly when the flagged-neighbor count equals the
cell's number; on `true` every unflagged neighbor ends up discovered
(cascading as in discover); on `false` the observable state is
unchanged EXCEPT that the pending-update list has been cleared. -/
theorem claim_C5_chord (s : MState) (draws : List (Nat × Nat)) (x y : Nat)
    (out : MState × List (Nat × Nat) × Bool)
    (hover : s.over = false) (hdisc : s.discovery x y = true)
    (hp : s.playInitiated = true)
    (hderiv : ∀ a, a < s.x → ∀ b, b < s.y → s.derivative a b = 0)
    (hlost : s.lost = false) (hwin : ¬ winCond s)
    (happ : test_number_tile s draws x y = some out) :
    (out.2.2 = true ↔ flagNbrCount s x y = s.numbers x y) ∧
    (out.2.2 = true → ∀ p ∈ get_legal_neighbors s.x s.y x y,
      s.flags p.1 p.2 = false → out.1.discovery p.1 p.2 = true) ∧
    (out.2.2 = false →
      (∀ a b, out.1.discovery a b = s.discovery a b) ∧
      (∀ a b, out.1.flags a b = s.flags a b) ∧
      (∀ a b, out.1.mines a b = s.mines a b) ∧
      (∀ a b, out.1.numbers a b = s.numbers a b) ∧
      (∀ a, a < s.x → ∀ b, b < s.y → out.1.board a b = s.board a b) ∧
      out.1.numDiscovered = s.numDiscovered ∧ out.1.numFlags = s.numFlags ∧
      out.1.over = s.over ∧ out.1.lost = s.lost ∧
      out.1.playInitiated = s.playInitiated ∧ out.1.updateList = []) := by
  rw [test_number_tile] at happ
  rw [if_neg (by simp [hover, hdisc])] at happ
  dsimp only at happ
  split at happ
  · rename_i hcnt
    split at happ
    · cases happ
    · rename_i s1 d1 hrl
      cases happ
      refine ⟨?_, ?_, ?_⟩
      · constructor
        · intro _
          exact hcnt
        · intro _
          rfl
      · intro _ p hpmem hfp
        have hd1 := runList_post (s.x * s.y + 1)
          (get_legal_neighbors s.x s.y x y) { s with updateList := [] }
          draws s1 d1 (by exact hp) hrl p hpmem (by exact hfp)
        show (update_game_board s1).discovery p.1 p.2 = true
        rw [(udb_fields s1).2.2.1]
        exact hd1
      · intro hfalse
        cases hfalse
  · rename_i hcnt
    cases happ
    have hc := udb_cleared_frame s hderiv hlost hwin
    refine ⟨?_, ?_, ?_⟩
    · constructor
      · intro hcontra
        cases hcontra
      · intro hcc
        exact absurd hcc hcnt
    · intro hcontra
      cases hcontra
    · intro _
      exact ⟨hc.2.2.1, hc.2.2.2.1, hc.2.2.2.2.1, hc.2.2.2.2.2.1,
        hc.2.2.2.2.2.2.1, hc.2.2.2.2.2.2.2.1, hc.2.2.2.2.2.2.2.2.1,
        hc.2.2.2.2.2.2.2.2.2.2.1, hc.2.2.2.2.2.2.2.2.2.2.2.1,
        hc.2.2.2.2.2.2.2.2.2.2.2.2.1, hc.2.2.2.2.2.2.2.2.2.2.2.2.2⟩

/-- A 5×1 session with the mine drawn at (4,0). -/
def exInitU5 : MState :=
  match init_game_state 5 1 (some 1) (0, 1) [(4, 0)] with
  | Except.ok (some (st, _)) => st
  | _ => dummyState

/-- The session after flagging (1,0) (a wrong flag on a safe cell). -/
def exFlagU5 : MState := (flag_tile exInitU5 1 0).1

/-- The session after discovering (0,0): the flood is stopped by the
flag, only (0,0) is revealed, the pending list holds (0,0). -/
def exMidU5 : MState :=
  ((discover_tile 10 exFlagU5 [] 0 0).getD (dummyState, [], false)).1

/-- The outcome of the chord at (0,0): one flagged neighbor against
the number 0, so the flag count does not match. -/
def c5out : MState × List (Nat × Nat) × Bool :=
  (test_number_tile exMidU5 [] 0 0).getD (dummyState, [], false)

/-- C5 (counterexample): a chord whose flag count does not match
returns `false` but still clears the pending-update list — state IS
mutated, contrary to the claim. -/
theorem claim_C5_counterexample :
    exMidU5.over = false ∧ exMidU5.discovery 0 0 = true ∧
    exMidU5.updateList = [(0, 0)] ∧
    test_number_tile exMidU5 [] 0 0 = some (c5out.1, c5out.2.1, c5out.2.2) ∧
    c5out.2.2 = false ∧ c5out.1.updateList = [] ∧
    (c5out.1.updateList = exMidU5.updateList → False) := by
  refine ⟨by decide, by decide, by decide, rfl, by decide, by decide, by decide⟩

/-- Witness for C5 (amended) at the concrete mismatching chord. -/
theorem claim_C5_chord_witness :
    exMidU5.over = false ∧
    ((c5out.2.2 = true ↔ flagNbrCount exMidU5 0 0 = exMidU5.numbers 0 0) ∧
      (c5out.2.2 = true → ∀ p ∈ get_legal_neighbors exMidU5.x exMidU5.y 0 0,
        exMidU5.flags p.1 p.2 = false → c5out.1.discovery p.1 p.2 = true) ∧
      (c5out.2.2 = false →
        (∀ a b, c5out.1.discovery a b = exMidU5.discovery a b) ∧
        (∀ a b, c5out.1.flags a b = exMidU5.flags a b) ∧
        (∀ a b, c5out.1.mines a b = exMidU5.mines a b) ∧
        (∀ a b, c5out.1.numbers a b = exMidU5.numbers a b) ∧
        (∀ a, a < exMidU5.x → ∀ b, b < exMidU5.y →
          c5out.1.board a b = exMidU5.board a b) ∧
        c5out.1.numDiscovered = exMidU5.numDiscovered ∧
        c5out.1.numFlags = exMidU5.numFlags ∧
        c5out.1.over = exMidU5.over ∧ c5out.1.lost = exMidU5.lost ∧
        c5out.1.playInitiated = exMidU5.playInitiated ∧
        c5out.1.updateList = [])) :=
  ⟨by decide,
    claim_C5_chord exMidU5 [] 0 0 c5out (by decide) (by decide) (by decide)
      (by decide) (by decide) (by decide) rfl⟩

/-! ### Claim C8 -/

/-- The 1×1 session with one mine: every cell is a mine, deterministic
(no draws are consumed). -/
def s11init : MState :=
  match init_game_state 1 1 (some 1) (0, 1) [] with
  | Except.ok (some (st, _)) => st
  | _ => dummyState

/-- In the 1×1 all-mine session a first-move regeneration rebuilds the
identical state while consuming no randomness: the retry loop is a
fixed point. -/
theorem s11_regen_fixed : regenerate s11init [] = some (s11init, []) := rfl

/-- The backend on the 1×1 all-mine session exhausts any fuel bound:
the regeneration retry loop never exits. -/
theorem s11_dtb_none :
    ∀ fuel, discover_tile_backend fuel s11init [] 0 0 = none := by
  intro fuel
  induction fuel with
  | zero => rfl
  | succ f ih =>
    rw [discover_tile_backend]
    rw [if_neg (by decide)]
    rw [if_pos (show s11init.playInitiated = false ∧
      (s11init.numbers 0 0 ≠ 0 ∨ s11init.mines 0 0 = true) by
        refine ⟨by decide, Or.inr (by decide)⟩)]
    rw [s11_regen_fixed]
    exact ih

/-- The public discover on the 1×1 all-mine session returns no result
for any fuel bound: the source loops forever. -/
theorem s11_discover_none :
    ∀ fuel, discover_tile fuel s11init [] 0 0 = none := by
  intro fuel
  rw [discover_tile]
  rw [if_neg (by decide)]
  rw [show discover_tile_backend fuel { s11init with updateList := [] } [] 0 0 =
    none from s11_dtb_none fuel]

/-- C8 (amended): the public operations terminate except for the
first-move regeneration loop, which has NO retry cap: on the 1×1
all-mine board `discover` exhausts every fuel bound (the python code
recurses forever), while once play is initiated the backend — hence
`chord`, `flag` and all non-first `discover`s — always terminates
within `tiles + 1` nested calls. -/
theorem claim_C8_termination :
    (∀ fuel, discover_tile fuel s11init [] 0 0 = none) ∧
    (∀ (s : MState) (draws : List (Nat × Nat)) (x y : Nat),
      s.playInitiated = true → x < s.x → y < s.y →
      ∃ out, discover_tile_backend (s.x * s.y + 1) s draws x y = some out) :=
  ⟨s11_discover_none,
    fun s draws x y hp hx hy =>
      dtb_isSome (s.x * s.y + 1) s draws x y hp
        (Nat.lt_succ_of_le (undisc_le s)) hx hy⟩

/-- C8 (counterexample): on the 1×1 all-mine board the first discover
call never returns — the claimed bounded retry cap with a `false`
return does not exist (the regeneration is a fixed point, so the loop
cannot exit for any bound). -/
theorem claim_C8_counterexample :
    s11init.over = false ∧ s11init.flags 0 0 = false ∧
    s11init.mines 0 0 = true ∧
    regenerate s11init [] = some (s11init, []) ∧
    discover_tile 1000 s11init [] 0 0 = none :=
  ⟨by decide, by decide, by decide, rfl, s11_discover_none 1000⟩

/-- Witness for C8 (amended): the non-termination at one fuel bound
and the totality part at a concrete mid-game state. -/
theorem claim_C8_termination_witness :
    c4wState.playInitiated = true ∧
    (∃ out, discover_tile_backend (c4wState.x * c4wState.y + 1) c4wState []
      1 0 = some out) ∧
    discover_tile 7 s11init [] 0 0 = none :=
  ⟨by decide,
    claim_C8_termination.2 c4wState [] 1 0 (by decide) (by decide) (by decide),
    claim_C8_termination.1 7⟩

/-! ### Claim C3: the flood region -/

/-- The set of cells the flood reveal starting at (x0,y0) marks: the
root, and, from any reached unflagged undiscovered zero-adjacency
non-mine cell, every unflagged undiscovered legal neighbor. -/
inductive Reach (s : MState) (x0 y0 : Nat) : Nat → Nat → Prop where
  | base : Reach s x0 y0 x0 y0
  | step {a b c d : Nat} : Reach s x0 y0 a b →
      s.flags a b = false → s.discovery a b = false →
      s.numbers a b = 0 → s.mines a b = false →
      (c, d) ∈ get_legal_neighbors s.x s.y a b →
      s.flags c d = false → s.discovery c d = false →
      Reach s x0 y0 c d

/-- Relation between the original state `s` of a flood rooted at
(x0,y0) and any intermediate state of the recursion: the static grids
agree, play stays initiated, and discovery grew exactly within the
reach set. -/
def FloodRel (s : MState) (x0 y0 : Nat) (t : MState) : Prop :=
  t.x = s.x ∧ t.y = s.y ∧ t.flags = s.flags ∧ t.mines = s.mines ∧
  t.numbers = s.numbers ∧ t.playInitiated = true ∧
  (∀ a b, s.discovery a b = true → t.discovery a b = true) ∧
  (∀ a b, t.discovery a b = true → s.discovery a b = true ∨ Reach s x0 y0 a b)

/-- The coordinates on which the flood recursion is invoked: the root,
or cells that are flagged or discovered in the original state (whose
calls are no-ops), or honestly reached cells. -/
def CallOK (s : MState) (x0 y0 a b : Nat) : Prop :=
  Reach s x0 y0 a b ∨ s.flags a b = true ∨ s.discovery a b = true

/-- Closure of a recursion segment from `t` to `u`: every
zero-adjacency non-mine cell newly discovered in the segment has all
its unflagged legal neighbors discovered by the end. -/
def NZRel (s t u : MState) : Prop :=
  ∀ c d, u.discovery c d = true → t.discovery c d = false →
    s.numbers c d = 0 → s.mines c d = false →
    ∀ p ∈ get_legal_neighbors s.x s.y c d, s.flags p.1 p.2 = false →
      u.discovery p.1 p.2 = true

theorem NZRel_refl (s t : MState) : NZRel s t t := by
  intro c d h1 h2
  rw [h1] at h2
  cases h2

theorem NZRel_comp {s t u v : MState}
    (h1 : NZRel s t u) (h2 : NZRel s u v)
    (hmono : ∀ a b, u.discovery a b = true → v.discovery a b = true) :
    NZRel s t v := by
  intro c d hv ht hz hm p hp hfp
  rcases Bool.eq_false_or_eq_true (u.discovery c d) with hu | hu
  · exact hmono p.1 p.2 (h1 c d hu ht hz hm p hp hfp)
  · exact h2 c d hv hu hz hm p hp hfp

theorem dtb_reach_aux : ∀ (fuel : Nat) (s : MState) (x0 y0 : Nat),
    (∀ (t : MState) (d : List (Nat × Nat)) (a b : Nat)
      (out : MState × List (Nat × Nat) × Bool),
      FloodRel s x0 y0 t → CallOK s x0 y0 a b →
      discover_tile_backend fuel t d a b = some out →
      FloodRel s x0 y0 out.1 ∧ NZRel s t out.1) ∧
    (∀ (l : List (Nat × Nat)) (t : MState) (d : List (Nat × Nat))
      (out : MState × List (Nat × Nat)),
      FloodRel s x0 y0 t → (∀ p ∈ l, CallOK s x0 y0 p.1 p.2) →
      runList (fun t d a b => discover_tile_backend fuel t d a b) t d l =
        some out →
      FloodRel s x0 y0 out.1 ∧ NZRel s t out.1 ∧
      (∀ p ∈ l, s.flags p.1 p.2 = false → out.1.discovery p.1 p.2 = true)) := by
  intro fuel
  induction fuel with
  | zero =>
    intro s x0 y0
    constructor
    · intro t d a b out hrel hok h
      simp [discover_tile_backend] at h
    · intro l t d out hrel hok h
      cases l with
      | nil =>
        cases h
        exact ⟨hrel, NZRel_refl s t, fun p hp => absurd hp (List.not_mem_nil p)⟩
      | cons q rest =>
        simp [runList, discover_tile_backend] at h
  | succ f ih =>
    intro s x0 y0
    obtain ⟨ihP, ihQ⟩ := ih s x0 y0
    have hP : ∀ (t : MState) (d : List (Nat × Nat)) (a b : Nat)
        (out : MState × List (Nat × Nat) × Bool),
        FloodRel s x0 y0 t → CallOK s x0 y0 a b →
        discover_tile_backend (f + 1) t d a b = some out →
        FloodRel s x0 y0 out.1 ∧ NZRel s t out.1 := by
      intro t d a b out hrel hok h
      obtain ⟨hx, hy, hfl, hmi, hnu, hpl, hmono, hsound⟩ := hrel
      rw [discover_tile_backend] at h
      by_cases hf : t.flags a b = true
      · rw [if_pos hf] at h
        cases h
        exact ⟨⟨hx, hy, hfl, hmi, hnu, hpl, hmono, hsound⟩, NZRel_refl s t⟩
      · rw [if_neg hf] at h
        rw [if_neg (by simp [hpl])] at h
        simp only [hpl, if_true] at h
        by_cases hd : t.discovery a b = true
        · rw [if_pos hd] at h
          cases h
          exact ⟨⟨hx, hy, hfl, hmi, hnu, hpl, hmono, hsound⟩, NZRel_refl s t⟩
        · rw [if_neg hd] at h
          have hfs : s.flags a b = false := by
            rw [← hfl]
            revert hf
            cases t.flags a b <;> simp
          have hds : s.discovery a b = false := by
            rcases Bool.eq_false_or_eq_true (s.discovery a b) with hh | hh
            · exact absurd (hmono a b hh) hd
            · exact hh
          have hreach : Reach s x0 y0 a b := by
            rcases hok with hk | hk | hk
            · exact hk
            · rw [hk] at hfs
              cases hfs
            · rw [hk] at hds
              cases hds
          have hsound2 : ∀ c e,
              updB t.discovery a b true c e = true →
              s.discovery c e = true ∨ Reach s x0 y0 c e := by
            intro c e hce
            rw [updB] at hce
            by_cases hcd : c = a ∧ e = b
            · rcases hcd with ⟨h1, h2⟩
              subst h1
              subst h2
              exact Or.inr hreach
            · rw [if_neg hcd] at hce
              exact hsound c e hce
          have hmono2 : ∀ c e, s.discovery c e = true →
              updB t.discovery a b true c e = true := by
            intro c e hce
            rw [updB]
            split
            · rfl
            · exact hmono c e hce
          by_cases hm : t.mines a b = true
          · rw [if_pos hm] at h
            cases h
            refine ⟨⟨hx, hy, hfl, hmi, hnu, rfl, hmono2, hsound2⟩, ?_⟩
            intro c e hu ht hz hmm p hp hfp
            show updB t.discovery a b true p.1 p.2 = true
            have hu' : updB t.discovery a b true c e = true := hu
            rw [updB] at hu'
            by_cases hcd : c = a ∧ e = b
            · rcases hcd with ⟨h1, h2⟩
              subst h1
              subst h2
              rw [← hmi] at hmm
              rw [hm] at hmm
              cases hmm
            · rw [if_neg hcd] at hu'
              rw [hu'] at ht
              cases ht
          · rw [if_neg hm] at h
            by_cases hz : t.numbers a b = 0
            · rw [if_pos hz] at h
              split at h
              · cases h
              · rename_i s4 d4 hrl
                cases h
                have hms : s.mines a b = false := by
                  rw [← hmi]
                  revert hm
                  cases t.mines a b <;> simp
                have hzs : s.numbers a b = 0 := by
                  rw [← hnu]
                  exact hz
                have hrelmark : FloodRel s x0 y0
                    { t with playInitiated := true,
                             discovery := updB t.discovery a b true,
                             derivative := (updI t.derivative a b
                               (t.derivative a b + 2 + (t.numbers a b : Int))) } := by
                  exact ⟨hx, hy, hfl, hmi, hnu, rfl, hmono2, hsound2⟩
                have hnbr : ∀ p ∈ get_legal_neighbors t.x t.y a b,
                    CallOK s x0 y0 p.1 p.2 := by
                  intro p hp
                  rcases Bool.eq_false_or_eq_true (s.flags p.1 p.2) with hpf | hpf
                  · exact Or.inr (Or.inl hpf)
                  · rcases Bool.eq_false_or_eq_true (s.discovery p.1 p.2) with
                      hpd | hpd
                    · exact Or.inr (Or.inr hpd)
                    · refine Or.inl (Reach.step hreach hfs hds hzs hms ?_ hpf hpd)
                      rw [hx, hy] at hp
                      exact (show (p.1, p.2) ∈
                        get_legal_neighbors s.x s.y a b by exact hp)
                obtain ⟨hrel4, hnz4, hpost4⟩ := ihQ
                  (get_legal_neighbors t.x t.y a b) _ d (s4, d4) hrelmark hnbr hrl
                constructor
                · exact ⟨hrel4.1, hrel4.2.1, hrel4.2.2.1, hrel4.2.2.2.1,
                    hrel4.2.2.2.2.1, hrel4.2.2.2.2.2.1, hrel4.2.2.2.2.2.2.1,
                    hrel4.2.2.2.2.2.2.2⟩
                · intro c e hu ht hz2 hm2 p hp hfp
                  by_cases hcd : c = a ∧ e = b
                  · rcases hcd with ⟨h1, h2⟩
                    subst h1
                    subst h2
                    have hp' : (p.1, p.2) ∈ get_legal_neighbors t.x t.y c e := by
                      rw [hx, hy]
                      exact (show (p.1, p.2) ∈
                        get_legal_neighbors s.x s.y c e from hp)
                    exact hpost4 (p.1, p.2) hp' hfp
                  · have ht2 : updB t.discovery a b true c e = false := by
                      rw [updB]
                      rw [if_neg hcd]
                      exact ht
                    exact hnz4 c e hu ht2 hz2 hm2 p hp hfp
            · rw [if_neg hz] at h
              cases h
              refine ⟨⟨hx, hy, hfl, hmi, hnu, rfl, hmono2, hsound2⟩, ?_⟩
              intro c e hu ht hz2 hm2 p hp hfp
              have hu' : updB t.discovery a b true c e = true := hu
              rw [updB] at hu'
              by_cases hcd : c = a ∧ e = b
              · rcases hcd with ⟨h1, h2⟩
                subst h1
                subst h2
                rw [← hnu] at hz2
                exact absurd hz2 hz
              · rw [if_neg hcd] at hu'
                rw [hu'] at ht
                cases ht
    refine ⟨hP, ?_⟩
    intro l
    induction l with
    | nil =>
      intro t d out hrel hok h
      cases h
      exact ⟨hrel, NZRel_refl s t, fun p hp => absurd hp (List.not_mem_nil p)⟩
    | cons q rest ihl =>
      intro t d out hrel hok h
      simp only [runList] at h
      cases hcall : discover_tile_backend (f + 1) t d q.1 q.2 with
      | none => rw [hcall] at h; cases h
      | some o =>
        obtain ⟨o1, od, orr⟩ := o
        rw [hcall] at h
        obtain ⟨hrel1, hnz1⟩ := hP t d q.1 q.2 (o1, od, orr) hrel
          (hok q (List.mem_cons_self q rest)) hcall
        obtain ⟨hrel2, hnz2, hpost2⟩ := ihl o1 od out hrel1
          (fun p hp => hok p (List.mem_cons_of_mem q hp)) h
        have hmono12 : ∀ a b, o1.discovery a b = true →
            out.1.discovery a b = true := by
          intro a b hab
          have hm := @runList_inv (fun t d a b => discover_tile_backend (f + 1) t d a b) Step
            (fun u => u.playInitiated = true)
            Step.refl (fun a b c => Step.trans)
            (fun t u hI hP => by
              show u.playInitiated = true
              rw [hP.2.2.2.2.2.1]
              exact hI)
            (fun t d a b out hI hcall =>
              dtb_step (f + 1) t d a b out hI hcall)
            rest o1 od out hrel1.2.2.2.2.2.1 h
          exact hm.1.2.2.2.2.2.2.2.2 a b hab
        refine ⟨hrel2, NZRel_comp hnz1 hnz2 hmono12, ?_⟩
        intro p hp hfp
        rcases List.mem_cons.mp hp with hq | hmem
        · subst hq
          have hd1 : o1.discovery p.1 p.2 = true := by
            have := dtb_post (f + 1) t d p.1 p.2 (o1, od, orr)
              hrel.2.2.2.2.2.1 hcall (by rw [hrel.2.2.1]; exact hfp)
            exact this
          exact hmono12 p.1 p.2 hd1
        · exact hpost2 p hmem hfp

/-- Completeness of the flood: from a state agreeing with `s` (same
grids and discovery, play initiated), a backend call at an unflagged
root discovers every cell in the reach set. -/
theorem reach_discovered (s : MState) (x0 y0 : Nat) (fuel : Nat) (t : MState)
    (d : List (Nat × Nat)) (out : MState × List (Nat × Nat) × Bool)
    (hx : t.x = s.x) (hy : t.y = s.y) (hfl : t.flags = s.flags)
    (hmi : t.mines = s.mines) (hnu : t.numbers = s.numbers)
    (hdi : t.discovery = s.discovery) (hpl : t.playInitiated = true)
    (hrootf : s.flags x0 y0 = false)
    (h : discover_tile_backend fuel t d x0 y0 = some out) :
    ∀ a b, Reach s x0 y0 a b → out.1.discovery a b = true := by
  have hrel : FloodRel s x0 y0 t := by
    refine ⟨hx, hy, hfl, hmi, hnu, hpl, ?_, ?_⟩
    · intro a b hab
      rw [hdi]
      exact hab
    · intro a b hab
      rw [hdi] at hab
      exact Or.inl hab
  obtain ⟨hrelout, hnz⟩ := (dtb_reach_aux fuel s x0 y0).1 t d x0 y0 out hrel
    (Or.inl Reach.base) h
  intro a b hr
  induction hr with
  | base =>
    exact dtb_post fuel t d x0 y0 out hpl h (by rw [hfl]; exact hrootf)
  | step hra hfa hda hza hma hnb hfc hdc ihr =>
    rename_i a1 b1 c1 d1
    have hta : t.discovery a1 b1 = false := by
      rw [hdi]
      exact hda
    exact hnz a1 b1 ihr hta hza hma (c1, d1) hnb hfc

/-- C3 (amended): with play initiated and the game not over,
discovering an undiscovered, unflagged, zero-adjacency non-mine cell
discovers exactly the cells reachable from it through unflagged,
undiscovered zero-adjacency non-mine cells together with their
unflagged undiscovered legal neighbors, and nothing else: a flag (or a
previously discovered cell) blocks the flood, so the claimed "entire
connected zero region plus its numbered border" overstates the result
(see `claim_C3_counterexample`). -/
theorem claim_C3_flood_region (fuel : Nat) (s : MState)
    (draws : List (Nat × Nat)) (x y : Nat)
    (out : MState × List (Nat × Nat) × Bool)
    (hover : s.over = false) (hp : s.playInitiated = true)
    (hflag : s.flags x y = false) (hdisc : s.discovery x y = false)
    (hzero : s.numbers x y = 0) (hmine : s.mines x y = false)
    (happ : discover_tile fuel s draws x y = some out) :
    ∀ a b, out.1.discovery a b = true ↔
      (s.discovery a b = true ∨ Reach s x y a b) := by
  rw [discover_tile] at happ
  rw [if_neg (by simp [hover])] at happ
  split at happ
  · cases happ
  · rename_i s1 d1 r hdtb
    cases happ
    intro a b
    have hfu := udb_fields s1
    have hrel : FloodRel s x y { s with updateList := [] } := by
      refine ⟨rfl, rfl, rfl, rfl, rfl, hp, fun _ _ h => h, fun _ _ h => Or.inl h⟩
    obtain ⟨hrelout, _⟩ := (dtb_reach_aux fuel s x y).1
      { s with updateList := [] } draws x y (s1, d1, r) hrel
      (Or.inl Reach.base) hdtb
    constructor
    · intro hab
      rw [hfu.2.2.1] at hab
      exact hrelout.2.2.2.2.2.2.2 a b hab
    · intro hab
      show (update_game_board s1).discovery a b = true
      rw [hfu.2.2.1]
      rcases hab with hab | hab
      · exact hrelout.2.2.2.2.2.2.1 a b hab
      · exact reach_discovered s x y fuel { s with updateList := [] } draws
          (s1, d1, r) rfl rfl rfl rfl rfl rfl (by exact hp) hflag hdtb a b hab

/-- A 3×1 zero-mine session. -/
def exInit3 : MState :=
  match init_game_state 3 1 (some 0) (0, 1) [] with
  | Except.ok (some (st, _)) => st
  | _ => dummyState

/-- The 3×1 session after flagging (2,0): a flag sits inside the
all-zero region. -/
def exFlag3 : MState := (flag_tile exInit3 2 0).1

/-- The outcome of the first discover at (0,0) on the flagged 3×1
board. -/
def c3out : MState × List (Nat × Nat) × Bool :=
  (discover_tile 10 exFlag3 [] 0 0).getD (dummyState, [], false)

/-- C3 (counterexample): on a 3×1 zero-mine board with a flag at
(2,0), cell (2,0) lies in the connected zero-adjacency region of the
discovered cell (0,0) — it is zero-adjacency, mine-free, and adjacent
to (1,0) which is adjacent to (0,0), all zero-adjacency — yet after
the discover call it remains undiscovered: the flag blocks the flood,
refuting "discovers its entire connected zero-adjacency region". -/
theorem claim_C3_counterexample :
    exFlag3.numbers 0 0 = 0 ∧ exFlag3.numbers 1 0 = 0 ∧
    exFlag3.numbers 2 0 = 0 ∧
    exFlag3.mines 0 0 = false ∧ exFlag3.mines 1 0 = false ∧
    exFlag3.mines 2 0 = false ∧
    (1, 0) ∈ get_legal_neighbors exFlag3.x exFlag3.y 0 0 ∧
    (2, 0) ∈ get_legal_neighbors exFlag3.x exFlag3.y 1 0 ∧
    discover_tile 10 exFlag3 [] 0 0 = some (c3out.1, c3out.2.1, c3out.2.2) ∧
    c3out.2.2 = true ∧
    c3out.1.discovery 0 0 = true ∧ c3out.1.discovery 1 0 = true ∧
    c3out.1.discovery 2 0 = false := by
  refine ⟨by decide, by decide, by decide, by decide, by decide, by decide,
    by decide, by decide, rfl, by decide, by decide, by decide, by decide⟩

/-- The outcome of discovering the free zero cell (2,0) of the mid-game
5×1 session (flood blocked by the flag at (1,0), numbered border at
(3,0)). -/
def c3wOut : MState × List (Nat × Nat) × Bool :=
  (discover_tile 10 exMidU5 [] 2 0).getD (dummyState, [], false)

/-- Witness for C3 (amended) at a concrete mid-game discover,
instantiated at the three interesting cells. -/
theorem claim_C3_flood_region_witness :
    exMidU5.playInitiated = true ∧
    (c3wOut.1.discovery 3 0 = true ↔
      (exMidU5.discovery 3 0 = true ∨ Reach exMidU5 2 0 3 0)) ∧
    (c3wOut.1.discovery 1 0 = true ↔
      (exMidU5.discovery 1 0 = true ∨ Reach exMidU5 2 0 1 0)) ∧
    (c3wOut.1.discovery 4 0 = true ↔
      (exMidU5.discovery 4 0 = true ∨ Reach exMidU5 2 0 4 0)) :=
  ⟨by decide,
    claim_C3_flood_region 10 exMidU5 [] 2 0 c3wOut (by decide) (by decide)
      (by decide) (by decide) (by decide) (by decide) rfl 3 0,
    claim_C3_flood_region 10 exMidU5 [] 2 0 c3wOut (by decide) (by decide)
      (by decide) (by decide) (by decide) (by decide) rfl 1 0,
    claim_C3_flood_region 10 exMidU5 [] 2 0 c3wOut (by decide) (by decide)
      (by decide) (by decide) (by decide) (by decide) rfl 4 0⟩

end Minesweeper
